import Mathlib

/-!
Verification of the daily X-media → Telegram sync engine.

Shallow embedding of the sync daemon's core logic:

* `makeMediaKey` (src/utils/hash.ts): SHA-256 over `tweetId ++ "::" ++ mediaUrl`,
  lowercase hex; the hash itself is embedded bit-for-bit on `Nat` with explicit
  `% 2^32` reductions.
* the SQLite state repo's pure content (src/state/sqlite.ts): account rows,
  media registry rows (insert-or-replace by key), and the job-lock
  check-and-set.
* the sync pipeline (src/core/pipeline.ts): per-media processing, per-tweet
  processing, candidate merge, budget-bounded selection, per-account error
  handling, and the whole run.
* the scheduler tick (src/scheduler.ts) and the env-schema of the config
  loader (src/config/index.ts).

Modelling conventions, used consistently below:

* ISO-8601 timestamps are represented by their epoch-millisecond values
  (`Nat`); `new Date(ms).toISOString()` / `Date.parse` form a bijection on the
  values the program produces, so comparisons and arithmetic carry over
  directly.  All `Date.now()` reads inside one run are modelled by a single
  `nowMs` (the program only ever compares these clocks against stored values,
  never against each other).
* nullable SQL columns / optional JS values are `Option`.
* external I/O (source fetches, media downloads, sink sends) is supplied by an
  environment record, so the pure Lean functions follow exactly the control
  flow the TypeScript takes for those outcomes; the observable effects
  (downloads, file removals, sink calls, DB writes) are recorded in an event
  trace.
* report strings built by `formatFailureReport` / `formatRunReport` are
  modelled by a tagged `ReportMsg` (their exact text matters to no claim).
-/

namespace Dau

/-! ## SHA-256 (node:crypto `createHash("sha256")`), on `Nat` with explicit mod -/

def wordMod : Nat := 4294967296

def rotr (n x : Nat) : Nat := ((x >>> n) ||| (x <<< (32 - n))) % wordMod

def bnot32 (x : Nat) : Nat := x ^^^ 4294967295

def shaCh (x y z : Nat) : Nat := (x &&& y) ^^^ (bnot32 x &&& z)

def shaMaj (x y z : Nat) : Nat := (x &&& y) ^^^ (x &&& z) ^^^ (y &&& z)

def shaS0 (x : Nat) : Nat := rotr 2 x ^^^ rotr 13 x ^^^ rotr 22 x

def shaS1 (x : Nat) : Nat := rotr 6 x ^^^ rotr 11 x ^^^ rotr 25 x

def shaLs0 (x : Nat) : Nat := rotr 7 x ^^^ rotr 18 x ^^^ (x >>> 3)

def shaLs1 (x : Nat) : Nat := rotr 17 x ^^^ rotr 19 x ^^^ (x >>> 10)

def shaK : List Nat :=
  [1116352408, 1899447441, 3049323471, 3921009573, 961987163, 1508970993,
   2453635748, 2870763221, 3624381080, 310598401, 607225278, 1426881987,
   1925078388, 2162078206, 2614888103, 3248222580, 3835390401, 4022224774,
   264347078, 604807628, 770255983, 1249150122, 1555081692, 1996064986,
   2554220882, 2821834349, 2952996808, 3210313671, 3336571891, 3584528711,
   113926993, 338241895, 666307205, 773529912, 1294757372, 1396182291,
   1695183700, 1986661051, 2177026350, 2456956037, 2730485921, 2820302411,
   3259730800, 3345764771, 3516065817, 3600352804, 4094571909, 275423344,
   430227734, 506948616, 659060556, 883997877, 958139571, 1322822218,
   1537002063, 1747873779, 1955562222, 2024104815, 2227730452, 2361852424,
   2428436474, 2756734187, 3204031479, 3329325298]

def shaH0 : List Nat :=
  [1779033703, 3144134277, 1013904242, 2773480762, 1359893119, 2600822924, 528734635, 1541459225]

/-- UTF-8 encoding of one scalar value (what `hash.update(string)` hashes). -/
def utf8EncodeChar (c : Char) : List Nat :=
  let n := c.toNat
  if n < 0x80 then [n]
  else if n < 0x800 then [0xC0 ||| (n >>> 6), 0x80 ||| (n &&& 0x3F)]
  else if n < 0x10000 then
    [0xE0 ||| (n >>> 12), 0x80 ||| ((n >>> 6) &&& 0x3F), 0x80 ||| (n &&& 0x3F)]
  else
    [0xF0 ||| (n >>> 18), 0x80 ||| ((n >>> 12) &&& 0x3F), 0x80 ||| ((n >>> 6) &&& 0x3F),
     0x80 ||| (n &&& 0x3F)]

def utf8Bytes (s : String) : List Nat := (s.data.map utf8EncodeChar).flatten

/-- SHA-256 padding: `0x80`, zeros to 56 mod 64, 8-byte big-endian bit length. -/
def padBytes (msg : List Nat) : List Nat :=
  let bitLen := msg.length * 8
  let zeros := (120 - ((msg.length + 1) % 64)) % 64
  msg ++ [0x80] ++ List.replicate zeros 0 ++
    (List.range 8).map (fun i => (bitLen >>> (8 * (7 - i))) &&& 255)

def beWord (l : List Nat) : Nat :=
  ((l.getD 0 0) <<< 24) ||| ((l.getD 1 0) <<< 16) ||| ((l.getD 2 0) <<< 8) ||| l.getD 3 0

def blockWords (block : List Nat) : List Nat :=
  (List.range 16).map (fun i => beWord (block.drop (4 * i)))

/-- Split into 64-byte blocks; `fuel ≥ length` makes the recursion structural. -/
def chunksOf64 : Nat → List Nat → List (List Nat)
  | 0, _ => []
  | _ + 1, [] => []
  | fuel + 1, l => l.take 64 :: chunksOf64 fuel (l.drop 64)

/-- Message-schedule extension from 16 to 64 words. -/
def shaExtend (w : List Nat) : List Nat :=
  (List.range 48).foldl
    (fun w i =>
      w ++ [(shaLs1 (w.getD (i + 14) 0) + w.getD (i + 9) 0 + shaLs0 (w.getD (i + 1) 0) +
             w.getD i 0) % wordMod])
    w

structure ShaState where
  a : Nat
  b : Nat
  c : Nat
  d : Nat
  e : Nat
  f : Nat
  g : Nat
  h : Nat

def shaCompressWord (s : ShaState) (kw : Nat × Nat) : ShaState :=
  let t1 := (s.h + shaS1 s.e + shaCh s.e s.f s.g + kw.1 + kw.2) % wordMod
  let t2 := (shaS0 s.a + shaMaj s.a s.b s.c) % wordMod
  ⟨(t1 + t2) % wordMod, s.a, s.b, s.c, (s.d + t1) % wordMod, s.e, s.f, s.g⟩

def shaCompressBlock (hs : List Nat) (block : List Nat) : List Nat :=
  let w := shaExtend (blockWords block)
  let s0 : ShaState :=
    ⟨hs.getD 0 0, hs.getD 1 0, hs.getD 2 0, hs.getD 3 0,
     hs.getD 4 0, hs.getD 5 0, hs.getD 6 0, hs.getD 7 0⟩
  let s := (shaK.zip w).foldl shaCompressWord s0
  [(hs.getD 0 0 + s.a) % wordMod, (hs.getD 1 0 + s.b) % wordMod,
   (hs.getD 2 0 + s.c) % wordMod, (hs.getD 3 0 + s.d) % wordMod,
   (hs.getD 4 0 + s.e) % wordMod, (hs.getD 5 0 + s.f) % wordMod,
   (hs.getD 6 0 + s.g) % wordMod, (hs.getD 7 0 + s.h) % wordMod]

def sha256Words (s : String) : List Nat :=
  let padded := padBytes (utf8Bytes s)
  (chunksOf64 padded.length padded).foldl shaCompressBlock shaH0

def hexDigit (n : Nat) : Char :=
  if n < 10 then Char.ofNat (48 + n) else Char.ofNat (87 + n)

def wordHex (w : Nat) : List Char :=
  (List.range 8).map (fun i => hexDigit ((w >>> (4 * (7 - i))) &&& 15))

/-- Lowercase-hex SHA-256 digest of a string's UTF-8 bytes. -/
def sha256Hex (s : String) : String :=
  String.mk ((sha256Words s).map wordHex).flatten

/-- `makeMediaKey` from src/utils/hash.ts:
`createHash("sha256").update(tweetId ++ "::" ++ mediaUrl).digest("hex")`. -/
def makeMediaKey (tweetId mediaUrl : String) : String :=
  sha256Hex (tweetId ++ "::" ++ mediaUrl)

example : (makeMediaKey "1" "u1" == makeMediaKey "2" "u2") = false := by decide

/-! ## Data model (src/types.ts, src/state/sqlite.ts)

`AccountState.updatedAt` (a bookkeeping write-timestamp defaulted to "now" on
every upsert) is not modelled; all claims concern the four semantic cursor
fields. -/

inductive MediaType
  | photo
  | video
  | gif
deriving DecidableEq, Repr

structure TweetMedia where
  id : String
  url : String
  type : MediaType
deriving DecidableEq, Repr

structure MediaTweet where
  id : String
  username : String
  text : String
  tweetUrl : String
  postedAt : Nat
  media : List TweetMedia
deriving DecidableEq, Repr

structure AccountState where
  latestSeenTweetId : Option String
  backfillCursor : Option String
  backfillDone : Bool
  rateLimitedUntil : Option Nat
deriving DecidableEq, Repr

inductive MediaStatus
  | uploaded
  | skipped_oversize
deriving DecidableEq, Repr

structure MediaRecord where
  mediaKey : String
  tweetId : String
  username : String
  mediaUrl : String
  mediaType : MediaType
  uploadedAt : Nat
  telegramMessageIds : List String
  status : MediaStatus
deriving DecidableEq, Repr

structure LockRow where
  lockedUntil : Nat
  holderId : String
deriving DecidableEq, Repr

/-- `getAccountState` returns this zero-valued cursor when no row exists. -/
def zeroAccountState : AccountState :=
  { latestSeenTweetId := none, backfillCursor := none, backfillDone := false
    rateLimitedUntil := none }

/-- `SELECT 1 FROM media_registry WHERE media_key = ?` (point lookup). -/
def isMediaUploaded (mediaKey : String) (reg : List MediaRecord) : Bool :=
  reg.any (fun r => r.mediaKey == mediaKey)

/-- `INSERT OR REPLACE INTO media_registry` keyed by `media_key`. -/
def markMediaUploaded (rec : MediaRecord) (reg : List MediaRecord) : List MediaRecord :=
  reg.filter (fun r => r.mediaKey ≠ rec.mediaKey) ++ [rec]

/-- `SqliteStateRepo.acquireJobLock`: inside `BEGIN IMMEDIATE`, read the lock
row; if it exists and `locked_until > now` commit and return false, otherwise
upsert `(now + ttl·1000, holderId)` and return true.  The whole transaction is
one atomic step of this model. -/
def acquireJobLock (now ttlSeconds : Nat) (holderId : String) (cur : Option LockRow) :
    Bool × Option LockRow :=
  match cur with
  | some row =>
      if now < row.lockedUntil then (false, some row)
      else (true, some ⟨now + ttlSeconds * 1000, holderId⟩)
  | none => (true, some ⟨now + ttlSeconds * 1000, holderId⟩)

/-- `DELETE FROM job_lock WHERE job_name = ? AND holder_id = ?`. -/
def releaseJobLock (holderId : String) (cur : Option LockRow) : Option LockRow :=
  match cur with
  | some row => if row.holderId = holderId then none else some row
  | none => none

/-! ## Error classification (src/unnamed/part_001, `isTwitterRateLimitError`)

A thrown JS error is modelled by whether it is a `TwitterRateLimitError`
instance plus its `message` (for non-`Error` values, `String(error)`).  The
classifier bundled with the live `SqliteStateRepo` also pattern-matches the
message against `/\(429\)|rate limit/i`; `src/errors.ts` additionally contains
an instanceof-only variant, but the claims describe the pattern-matching one
and the pipeline's behaviour is stated relative to this classifier either
way. -/

structure ErrorInfo where
  isRateLimitInstance : Bool
  message : String
deriving DecidableEq, Repr

/-- `needle` begins `hay`. -/
def charsStartWith : List Char → List Char → Bool
  | [], _ => true
  | _ :: _, [] => false
  | c :: cs, d :: ds => c == d && charsStartWith cs ds

/-- `needle` occurs as a contiguous run of characters of `hay`. -/
def charsSegment (needle hay : List Char) : Bool :=
  match hay with
  | [] => needle.isEmpty
  | _ :: rest => charsStartWith needle hay || charsSegment needle rest

def strContains (hay needle : String) : Bool :=
  charsSegment needle.data hay.data

/-- ASCII case-lowering (the `/i` regex flag; the pattern is pure ASCII). -/
def strLower (s : String) : String :=
  String.mk (s.data.map Char.toLower)

/-- `/\(429\)|rate limit/i.test(message)`: the first alternative has no cased
characters, the second is matched case-insensitively (ASCII lowering suffices
for these patterns). -/
def rateLimitPattern (message : String) : Bool :=
  strContains message "(429)" || strContains (strLower message) "rate limit"

def isTwitterRateLimitError (e : ErrorInfo) : Bool :=
  e.isRateLimitInstance || rateLimitPattern e.message

example : rateLimitPattern "Twitter GraphQL request failed (429)" = true := by decide
example : rateLimitPattern "Rate Limit exceeded" = true := by decide
example : rateLimitPattern "Response status: 401" = false := by decide

/-! ## Pipeline configuration

The configuration record as the pipeline (and its own test) consumes it: only
the fields `SyncPipeline` reads, including `twitterRateLimitCooldownSeconds`.
The config *loader*'s faithful output record `AppConfig` is defined separately
below and — decisively for claim C5 — carries no such field. -/

structure PipelineConfig where
  twitterUsers : List String
  backfillPagesPerRun : Nat
  maxMediaPerRun : Nat
  downloadTmpDir : String
  jobLockTtlSeconds : Nat
  twitterRateLimitCooldownSeconds : Nat
  maxUploadVideoBytes : Nat
deriving DecidableEq, Repr

structure LocalFile where
  mediaKey : String
  mediaUrl : String
  mediaType : MediaType
  path : String
  fileSizeBytes : Nat
deriving DecidableEq, Repr

inductive ReportMsg
  | failureReport (context : String) (errMessage : String)
  | runReport
deriving DecidableEq, Repr

/-- Observable effects, in program order. -/
inductive Event
  | download (mediaKey path : String)
  | removeFile (path : String)
  | sendMedia (files : List LocalFile)
  | markMedia (rec : MediaRecord)
  | sendText (msg : ReportMsg)
  | upsertState (username : String) (st : AccountState)
deriving DecidableEq, Repr

/-- Outcome of `withRetry(downloadMedia ...)` (retries exhausted ⇒ rethrow). -/
inductive DownloadOutcome
  | ok (fileSizeBytes : Nat)
  | err
deriving DecidableEq, Repr

def mediaExt : MediaType → String
  | .photo => ".jpg"
  | _ => ".mp4"

/-- `<downloadTmpDir>/<username>/<mediaKey><ext>` (downloader.ts path). -/
def mediaPath (cfg : PipelineConfig) (username mediaKey : String) (ty : MediaType) : String :=
  cfg.downloadTmpDir ++ "/" ++ username ++ "/" ++ mediaKey ++ mediaExt ty

structure Totals where
  uploaded : Nat
  skipped : Nat
  failed : Nat
deriving DecidableEq, Repr

structure LoopState where
  totals : Totals
  reg : List MediaRecord
  files : List LocalFile
  events : List Event
deriving DecidableEq, Repr

/-- The `skipped_oversize` registry row recorded for an oversize non-photo. -/
def oversizeRecord (username tweetId : String) (nowMs : Nat) (m : TweetMedia) : MediaRecord :=
  { mediaKey := makeMediaKey tweetId m.url, tweetId := tweetId, username := username
    mediaUrl := m.url, mediaType := m.type, uploadedAt := nowMs, telegramMessageIds := []
    status := .skipped_oversize }

/-- One iteration of `processTweet`'s media loop (pipeline.ts 163-206).  The
second component is `true` when the iteration threw (download retries
exhausted), which aborts the loop. -/
def procStep (cfg : PipelineConfig) (username tweetId : String) (nowMs : Nat)
    (dl : Nat → DownloadOutcome) (idx : Nat) (m : TweetMedia) (s : LoopState) :
    LoopState × Bool :=
  let key := makeMediaKey tweetId m.url
  if isMediaUploaded key s.reg then
    ({ s with totals := { s.totals with skipped := s.totals.skipped + 1 } }, false)
  else
    let path := mediaPath cfg username key m.type
    match dl idx with
    | .err => ({ s with events := s.events ++ [Event.download key path] }, true)
    | .ok size =>
        let s := { s with events := s.events ++ [Event.download key path] }
        if m.type ≠ .photo ∧ cfg.maxUploadVideoBytes < size then
          ({ s with
              totals := { s.totals with skipped := s.totals.skipped + 1 }
              reg := markMediaUploaded (oversizeRecord username tweetId nowMs m) s.reg
              events := s.events ++
                [Event.markMedia (oversizeRecord username tweetId nowMs m),
                 Event.removeFile path] }, false)
        else
          ({ s with files := s.files ++ [({ mediaKey := key, mediaUrl := m.url, mediaType := m.type, path := path, fileSizeBytes := size } : LocalFile)] }, false)

/-- The media loop over the (index, media) pairs. -/
def procLoop (cfg : PipelineConfig) (username tweetId : String) (nowMs : Nat)
    (dl : Nat → DownloadOutcome) : List (Nat × TweetMedia) → LoopState → LoopState × Bool
  | [], s => (s, false)
  | (i, m) :: rest, s =>
      let (s', thrown) := procStep cfg username tweetId nowMs dl i m s
      if thrown then (s', true) else procLoop cfg username tweetId nowMs dl rest s'

def enumFrom (start : Nat) : List α → List (Nat × α)
  | [] => []
  | x :: xs => (start, x) :: enumFrom (start + 1) xs

/-- `SyncPipeline.processTweet`: media loop, group send (outcome supplied by
`send`; `none` = retries exhausted), uploaded-record inserts, and the
guaranteed `finally` cleanup of every buffered download. -/
def processTweet (cfg : PipelineConfig) (username : String) (nowMs : Nat)
    (dl : Nat → DownloadOutcome) (send : Option (List String))
    (reg : List MediaRecord) (tweet : MediaTweet) :
    Totals × List MediaRecord × List Event :=
  let s0 : LoopState := ⟨⟨0, 0, 0⟩, reg, [], []⟩
  let (s, thrown) := procLoop cfg username tweet.id nowMs dl (enumFrom 0 tweet.media) s0
  if thrown then
    ({ s.totals with failed := s.totals.failed + 1 }, s.reg,
     s.events ++ s.files.map (fun f => Event.removeFile f.path))
  else if s.files.isEmpty then
    (s.totals, s.reg, s.events)
  else
    match send with
    | none =>
        ({ s.totals with failed := s.totals.failed + 1 }, s.reg,
         s.events ++ [Event.sendMedia s.files] ++ s.files.map (fun f => Event.removeFile f.path))
    | some ids =>
        let recs : List MediaRecord := s.files.map (fun f =>
          { mediaKey := f.mediaKey, tweetId := tweet.id, username := username
            mediaUrl := f.mediaUrl, mediaType := f.mediaType, uploadedAt := nowMs
            telegramMessageIds := ids, status := .uploaded })
        ({ s.totals with uploaded := s.totals.uploaded + s.files.length },
         recs.foldl (fun acc q => markMediaUploaded q acc) s.reg,
         s.events ++ [Event.sendMedia s.files] ++ recs.map (fun r => Event.markMedia r) ++
           s.files.map (fun f => Event.removeFile f.path))


/-! ## Registry and loop invariants (shared by C1/C6/C10) -/

def regKeys (reg : List MediaRecord) : List String := reg.map (fun r => r.mediaKey)

theorem isMediaUploaded_eq_true_iff (key : String) (reg : List MediaRecord) :
    isMediaUploaded key reg = true ↔ key ∈ regKeys reg := by
  constructor
  · intro h
    simp only [isMediaUploaded, List.any_eq_true, beq_iff_eq] at h
    obtain ⟨r, hr, hrk⟩ := h
    exact List.mem_map.mpr ⟨r, hr, hrk⟩
  · intro h
    obtain ⟨r, hr, hrk⟩ := List.mem_map.mp h
    simp only [isMediaUploaded, List.any_eq_true, beq_iff_eq]
    exact ⟨r, hr, hrk⟩

theorem regKeys_mark_mem (rec : MediaRecord) (reg : List MediaRecord) (key : String)
    (h : key ∈ regKeys reg) : key ∈ regKeys (markMediaUploaded rec reg) := by
  by_cases hk : key = rec.mediaKey
  · subst hk
    simp [regKeys, markMediaUploaded]
  · simp only [regKeys, markMediaUploaded, List.map_append, List.mem_append]
    left
    simp only [regKeys, List.mem_map] at h ⊢
    obtain ⟨r, hr, hrk⟩ := h
    exact ⟨r, List.mem_filter.mpr ⟨hr, by simp [hrk, hk]⟩, hrk⟩

theorem mark_mem_self (rec : MediaRecord) (reg : List MediaRecord) :
    rec ∈ markMediaUploaded rec reg := by
  simp [markMediaUploaded]

theorem mark_preserves_mem (rec q : MediaRecord) (reg : List MediaRecord)
    (h : q ∈ reg) (hne : q.mediaKey ≠ rec.mediaKey) : q ∈ markMediaUploaded rec reg := by
  simp only [markMediaUploaded, List.mem_append]
  left
  exact List.mem_filter.mpr ⟨h, by simp [hne]⟩

theorem regKeys_mark_nodup (rec : MediaRecord) (reg : List MediaRecord)
    (h : (regKeys reg).Nodup) : (regKeys (markMediaUploaded rec reg)).Nodup := by
  simp only [regKeys, markMediaUploaded, List.map_append, List.map_cons, List.map_nil]
  refine List.Nodup.append ?_ (List.nodup_singleton _) ?_
  · exact List.Nodup.sublist ((List.filter_sublist reg).map (fun r => r.mediaKey)) h
  · intro k hk hk2
    simp only [List.mem_singleton] at hk2
    subst hk2
    simp only [List.mem_map] at hk
    obtain ⟨r, hr, hrk⟩ := hk
    have hp := List.of_mem_filter hr
    simp [hrk] at hp
/-! ## Source fetches and the per-account step (SyncPipeline.run body) -/

/-- Outcome of one `twitterClient.listTweetsWithMedia` call. -/
inductive FetchOutcome
  | ok (tweets : List MediaTweet) (nextCursor : Option String)
  | err (e : ErrorInfo)
deriving DecidableEq, Repr

/-- Environment of one account's processing: the two fetch outcomes and, per
tweet id, the download outcomes (by media index) and the group-send outcome
(`none` = send retries exhausted). -/
structure AccountEnv where
  incremental : FetchOutcome
  backfill : FetchOutcome
  download : String → Nat → DownloadOutcome
  send : String → Option (List String)

/-- `collectIncrementalTweets`: accept tweets in response order until one whose
id equals `latestSeenTweetId`. -/
def takeUntilSeen (latest : Option String) : List MediaTweet → List MediaTweet
  | [] => []
  | t :: ts =>
      match latest with
      | some l =>
          -- `latestSeenTweetId && tweet.id === latestSeenTweetId`: the empty
          -- string is falsy, so it never stops the scan.
          if l ≠ "" ∧ t.id = l then [] else t :: takeUntilSeen latest ts
      | none => t :: takeUntilSeen latest ts

/-- `response.tweets[0]?.id ?? latestSeenTweetId`. -/
def newestSeenId (latest : Option String) : List MediaTweet → Option String
  | [] => latest
  | t :: _ => some t.id

/-- JS falsiness of an optional cursor string (`!cursor`). -/
def cursorFalsy : Option String → Bool
  | none => true
  | some c => c = ""

/-- `Number(id)` for the sort comparator; post ids are decimal strings. -/
def idNum (s : String) : Nat := (s.toNat?).getD 0

/-- Insert `t` after every element with a smaller-or-equal numeric id. -/
def insertAsc (t : MediaTweet) : List MediaTweet → List MediaTweet
  | [] => [t]
  | u :: us => if idNum t.id < idNum u.id then t :: u :: us else u :: insertAsc t us

/-- Stable ascending sort by numeric id (JS `Array.prototype.sort` is stable). -/
def sortTweetsAsc (ts : List MediaTweet) : List MediaTweet :=
  ts.foldl (fun acc t => insertAsc t acc) []

/-- Last tweet of the list carrying the given id (later `Map.set` wins). -/
def lastWithId (ts : List MediaTweet) (id : String) : Option MediaTweet :=
  ts.foldl (fun acc t => if t.id = id then some t else acc) none

/-- Ids in first-occurrence order, each kept once. -/
def firstOccIds (ts : List MediaTweet) : List String :=
  ts.foldl (fun keys t => if keys.contains t.id then keys else keys ++ [t.id]) []

/-- `mergeUniqueTweets`: a JS `Map` keyed by id (insertion order of first
occurrence, last value wins), then a stable ascending sort by `Number(id)`. -/
def mergeUniqueTweets (ts : List MediaTweet) : List MediaTweet :=
  sortTweetsAsc ((firstOccIds ts).filterMap (lastWithId ts))

/-- The budget-bounded selection loop (pipeline.ts 324-336): stop when the
budget is spent; skip an over-budget tweet once something is selected. -/
def selectTweets : List MediaTweet → Int → List MediaTweet → List MediaTweet
  | [], _, sel => sel
  | t :: ts, budget, sel =>
      if budget ≤ 0 then sel
      else if (t.media.length : Int) > budget ∧ 0 < sel.length then
        selectTweets ts budget sel
      else selectTweets ts (budget - t.media.length) (sel ++ [t])

/-- Sequential per-tweet processing of the selected tweets, accumulating the
counters, the registry and the event trace. -/
def processSelected (cfg : PipelineConfig) (username : String) (nowMs : Nat)
    (env : AccountEnv) : List MediaTweet → List MediaRecord →
    Totals × List MediaRecord × List Event
  | [], reg => (⟨0, 0, 0⟩, reg, [])
  | t :: ts, reg =>
      let (tot, reg1, evs) :=
        processTweet cfg username nowMs (env.download t.id) (env.send t.id) reg t
      let (totRest, reg2, evsRest) := processSelected cfg username nowMs env ts reg1
      (⟨tot.uploaded + totRest.uploaded, tot.skipped + totRest.skipped,
        tot.failed + totRest.failed⟩,
       reg2, evs ++ evsRest)

structure AccountRunSummary where
  username : String
  uploaded : Nat
  skipped : Nat
  failed : Nat
  incrementalTweetsSelected : Nat
  backfillTweetsSelected : Nat
  incrementalTweetsCandidates : Nat
  backfillTweetsCandidates : Nat
  backfillDone : Bool
  cooldownActive : Bool
  cooldownUntil : Option Nat
deriving DecidableEq, Repr

def createAccountSummary (username : String) : AccountRunSummary :=
  { username := username, uploaded := 0, skipped := 0, failed := 0
    incrementalTweetsSelected := 0, backfillTweetsSelected := 0
    incrementalTweetsCandidates := 0, backfillTweetsCandidates := 0
    backfillDone := false, cooldownActive := false, cooldownUntil := none }

/-- `rateLimitedUntil` is set and strictly in the future. -/
def cooldownIsActive (st : AccountState) (nowMs : Nat) : Bool :=
  match st.rateLimitedUntil with
  | some t => nowMs < t
  | none => false

/-- `computeCooldownUntil`: `now + twitterRateLimitCooldownSeconds · 1000`. -/
def computeCooldownUntil (cfg : PipelineConfig) (nowMs : Nat) : Nat :=
  nowMs + cfg.twitterRateLimitCooldownSeconds * 1000

/-- The error-catching account body: everything between loading the cursor and
the success-path upsert, producing either the thrown error (with the partially
updated summary, as the source mutates it in place) or the success data. -/
def accountBody (cfg : PipelineConfig) (username : String) (nowMs : Nat)
    (env : AccountEnv) (st : AccountState) (reg : List MediaRecord) :
    (ErrorInfo × AccountRunSummary) ⊕
      (AccountState × List MediaRecord × AccountRunSummary × List Event) :=
  let summary0 := createAccountSummary username
  match env.incremental with
  | .err e => .inl (e, summary0)
  | .ok tweets _ =>
      let incTweets := takeUntilSeen st.latestSeenTweetId tweets
      let newest := newestSeenId st.latestSeenTweetId tweets
      let summary1 := { summary0 with incrementalTweetsCandidates := incTweets.length }
      let backfillRes : FetchOutcome :=
        if st.backfillDone then .ok [] none else env.backfill
      match backfillRes with
      | .err e => .inl (e, summary1)
      | .ok backTweets nextCursor =>
          -- `backfillDone: !response.nextCursor` (absent or empty-string falsy)
          let backfillDone := cursorFalsy nextCursor
          let summary2 := { summary1 with backfillTweetsCandidates := backTweets.length }
          let merged := mergeUniqueTweets (incTweets ++ backTweets)
          let incIds := incTweets.map (fun t => t.id)
          let incCand := merged.filter (fun t => incIds.contains t.id)
          let backCand := merged.filter (fun t => !incIds.contains t.id)
          let sel := selectTweets (incCand ++ backCand) (cfg.maxMediaPerRun : Int) []
          let (tot, reg', evs) := processSelected cfg username nowMs env sel reg
          let incSel := (sel.filter (fun t => incIds.contains t.id)).length
          let st' : AccountState :=
            { latestSeenTweetId := newest, backfillCursor := nextCursor
              backfillDone := backfillDone, rateLimitedUntil := none }
          let summary3 :=
            { summary2 with
                uploaded := tot.uploaded, skipped := tot.skipped, failed := tot.failed
                backfillDone := backfillDone
                incrementalTweetsSelected := incSel
                backfillTweetsSelected := sel.length - incSel }
          .inr (st', reg', summary3, evs ++ [Event.upsertState username st'])

/-- One iteration of the account loop of `SyncPipeline.run` (276-403):
cooldown short-circuit, the try body, and the catch block's two branches. -/
def runAccount (cfg : PipelineConfig) (username : String) (nowMs : Nat)
    (env : AccountEnv) (st : AccountState) (reg : List MediaRecord) :
    AccountState × List MediaRecord × AccountRunSummary × List Event :=
  if cooldownIsActive st nowMs then
    (st, reg,
     { createAccountSummary username with
         cooldownActive := true, cooldownUntil := st.rateLimitedUntil
         backfillDone := st.backfillDone },
     [])
  else
    match accountBody cfg username nowMs env st reg with
    | .inr res => res
    | .inl (e, psum) =>
        if isTwitterRateLimitError e then
          let cu := computeCooldownUntil cfg nowMs
          let st' := { st with rateLimitedUntil := some cu }
          (st', reg,
           { psum with
               failed := 1, backfillDone := st.backfillDone
               cooldownActive := true, cooldownUntil := some cu },
           [Event.upsertState username st'])
        else
          (st, reg,
           { psum with failed := 1, backfillDone := st.backfillDone },
           [Event.sendText (ReportMsg.failureReport ("account:" ++ username) e.message)])

/-! ## The whole run (`SyncPipeline.run`) -/

structure RunSummary where
  skippedByLock : Bool
  accounts : List AccountRunSummary
deriving DecidableEq, Repr

structure PipelineState where
  accounts : List (String × AccountState)
  registry : List MediaRecord
  lock : Option LockRow
deriving DecidableEq, Repr

/-- `getAccountState`: stored row or the zero-valued cursor. -/
def getAccountState (username : String) (rows : List (String × AccountState)) : AccountState :=
  match rows.lookup username with
  | some st => st
  | none => zeroAccountState

def putAccountState (username : String) (st : AccountState)
    (rows : List (String × AccountState)) : List (String × AccountState) :=
  (username, st) :: rows.filter (fun p => p.1 ≠ username)

/-- `SyncPipeline.run`: lock acquisition (early return when contended), the
account loop, the aggregated run report, and the guaranteed lock release. -/
def runPipeline (cfg : PipelineConfig) (holderId : String) (nowMs : Nat)
    (env : String → AccountEnv) (st : PipelineState) :
    RunSummary × PipelineState × List Event :=
  let (acquired, lock1) := acquireJobLock nowMs cfg.jobLockTtlSeconds holderId st.lock
  if !acquired then
    ({ skippedByLock := true, accounts := [] }, { st with lock := lock1 }, [])
  else
    let (rows, reg, sums, evs) :=
      cfg.twitterUsers.foldl
        (fun acc username =>
          let (rows, reg, sums, evs) := acc
          let (st', reg', sum, evs') :=
            runAccount cfg username nowMs (env username) (getAccountState username rows) reg
          (putAccountState username st' rows, reg', sums ++ [sum], evs ++ evs'))
        (st.accounts, st.registry, ([] : List AccountRunSummary), ([] : List Event))
    ({ skippedByLock := false, accounts := sums },
     { accounts := rows, registry := reg, lock := releaseJobLock holderId lock1 },
     evs ++ [Event.sendText ReportMsg.runReport])

/-! ## Sink adapter chunking (src/adapters/telegram.ts) -/

/-- `chunkArray(items, size)`; `fuel ≥ items.length` makes it structural. -/
def chunkArray (fuel size : Nat) (items : List α) : List (List α) :=
  match fuel, items with
  | 0, _ => []
  | _ + 1, [] => []
  | fuel + 1, l => l.take size :: chunkArray fuel size (l.drop size)

/-- `sendTweetMediaGroup`: chunk the files 10 per album; per chunk, send and
collect the numeric ids of the returned messages (stringified), in send order.
`chunkIds i` supplies the ids the sink returns for chunk `i`. -/
def sendTweetMediaGroupIds (chunkIds : Nat → List Nat) (files : List LocalFile) :
    List String :=
  (enumFrom 0 (chunkArray files.length 10 files)).foldl
    (fun acc p => acc ++ (chunkIds p.1).map (fun n => toString n)) []

/-! ## Scheduler (src/scheduler.ts, `executeDueRun`) -/

structure SchedulerConfig where
  dailyAtHour : Nat
  dailyAtMinute : Nat
deriving DecidableEq, Repr

structure DateParts where
  dateKey : String
  hour : Nat
  minute : Nat
deriving DecidableEq, Repr

structure SchedState where
  isRunning : Bool
  lastRunDateKey : String
deriving DecidableEq, Repr

/-- What the awaited `runSyncOnce` did: returned with `skippedByLock`, or threw. -/
inductive RunOutcome
  | finished (skippedByLock : Bool)
  | failed
deriving DecidableEq, Repr

/-- One scheduler tick.  Returns the state after the tick and whether the Sync
Engine was invoked. -/
def executeDueRun (sc : SchedulerConfig) (now : DateParts) (outcome : RunOutcome)
    (st : SchedState) : SchedState × Bool :=
  if st.isRunning then (st, false)
  else
    let dueToday :=
      sc.dailyAtHour < now.hour ∨ (now.hour = sc.dailyAtHour ∧ sc.dailyAtMinute ≤ now.minute)
    if ¬dueToday ∨ st.lastRunDateKey = now.dateKey then (st, false)
    else
      match outcome with
      | .finished skippedByLock =>
          ({ isRunning := false
             lastRunDateKey := if skippedByLock then st.lastRunDateKey else now.dateKey },
           true)
      | .failed => ({ st with isRunning := false }, true)

/-! ## Config loader env schema (src/config/index.ts, `syncEnvSchema`)

Only the zod schema itself is embedded (the claim cites exactly its lines);
`parseCookies`' JSON handling is orthogonal to every claim and not modelled.
`z.coerce.number().int().positive()` is modelled on decimal-digit strings. -/

def EnvMap := List (String × String)

def envLookup (env : EnvMap) (key : String) : Option String :=
  match env with
  | [] => none
  | (k, v) :: rest => if k = key then some v else envLookup rest key

def coercePositiveInt (s : String) : Option Nat :=
  match s.toNat? with
  | some n => if 0 < n then some n else none
  | none => none

def coercePositiveIntD (env : EnvMap) (key : String) (dflt : Nat) : Option Nat :=
  match envLookup env key with
  | some s => coercePositiveInt s
  | none => some dflt

def stringD (env : EnvMap) (key dflt : String) : String :=
  match envLookup env key with
  | some s => s
  | none => dflt

/-- `TWITTER_USERS` transform: split on commas, trim, strip one leading `@`,
drop empties. -/
def parseUsers (raw : String) : List String :=
  ((raw.splitOn ",").map (fun s =>
      let t := s.trim
      if t.startsWith "@" then t.drop 1 else t)).filter (fun s => s ≠ "")

/-- The loader's faithful output record: note the absence of any rate-limit
cooldown field, exactly as in the source `AppConfig`. -/
structure AppConfig where
  twitterUsers : List String
  twitterCookiesJson : String
  telegramApiId : Nat
  telegramApiHash : String
  telegramStringSession : String
  timezone : String
  stateDbPath : String
  backfillPagesPerRun : Nat
  maxMediaPerRun : Nat
  downloadTmpDir : String
  jobLockTtlSeconds : Nat
  maxUploadVideoBytes : Nat
deriving DecidableEq, Repr

/-- `syncEnvSchema.parse`: the exact key set the schema reads, with its
defaults; any other environment entry is ignored (zod strips unknown keys). -/
def syncEnvParse (env : EnvMap) : Option AppConfig := do
  let usersRaw ← envLookup env "TWITTER_USERS"
  if usersRaw.length < 1 then failure
  let cookies ← envLookup env "TWITTER_COOKIES_JSON"
  if cookies.length < 2 then failure
  let apiId ← (envLookup env "TELEGRAM_API_ID").bind coercePositiveInt
  let apiHash ← envLookup env "TELEGRAM_API_HASH"
  if apiHash.length < 10 then failure
  let session := stringD env "TELEGRAM_STRING_SESSION" ""
  let tz := stringD env "TZ" "Asia/Shanghai"
  let dbPath := stringD env "STATE_DB_PATH" "/data/state.sqlite"
  let backfillPages ← coercePositiveIntD env "BACKFILL_PAGES_PER_RUN" 10
  let maxMedia ← coercePositiveIntD env "MAX_MEDIA_PER_RUN" 300
  let tmpDir := stringD env "DOWNLOAD_TMP_DIR" "/tmp/work"
  let lockTtl ← coercePositiveIntD env "JOB_LOCK_TTL_SECONDS" 3300
  let maxVideo ← coercePositiveIntD env "MAX_UPLOAD_VIDEO_BYTES" (512 * 1024 * 1024)
  pure
    { twitterUsers := parseUsers usersRaw, twitterCookiesJson := cookies
      telegramApiId := apiId, telegramApiHash := apiHash, telegramStringSession := session
      timezone := tz, stateDbPath := dbPath, backfillPagesPerRun := backfillPages
      maxMediaPerRun := maxMedia, downloadTmpDir := tmpDir, jobLockTtlSeconds := lockTtl
      maxUploadVideoBytes := maxVideo }

end Dau

/-! # Theorems -/

namespace Dau

/-! ## C4: job-lock acquisition -/

/-- C4.  `acquire_lock` observes the current row atomically: an absent row or
one with `locked_until ≤ now` (expired locks are unheld) is overwritten with
`(now + ttl, holder)` and the call returns `true`; a live row is left
unchanged and the call returns `false`; consequently a second caller at the
same instant can never also succeed. -/
theorem acquireJobLock_spec (now ttl : Nat) (hid : String) (cur : Option LockRow)
    (httl : 0 < ttl) :
    (cur = none →
      acquireJobLock now ttl hid cur = (true, some ⟨now + ttl * 1000, hid⟩)) ∧
    (∀ row, cur = some row → row.lockedUntil ≤ now →
      acquireJobLock now ttl hid cur = (true, some ⟨now + ttl * 1000, hid⟩)) ∧
    (∀ row, cur = some row → now < row.lockedUntil →
      acquireJobLock now ttl hid cur = (false, cur)) ∧
    (∀ hid2 ttl2, (acquireJobLock now ttl hid cur).1 = true →
      (acquireJobLock now ttl2 hid2 (acquireJobLock now ttl hid cur).2).1 = false) := by
  refine ⟨?_, ?_, ?_, ?_⟩
  · rintro rfl; rfl
  · rintro row rfl hle
    simp [acquireJobLock, Nat.not_lt.mpr hle]
  · rintro row rfl hlt
    simp [acquireJobLock, hlt]
  · rintro hid2 ttl2 hacq
    match cur with
    | none =>
        simp only [acquireJobLock] at hacq ⊢
        have : now < now + ttl * 1000 := by omega
        simp [this]
    | some row =>
        by_cases hlt : now < row.lockedUntil
        · simp [acquireJobLock, hlt] at hacq
        · simp only [acquireJobLock, if_neg hlt] at hacq ⊢
          have : now < now + ttl * 1000 := by omega
          simp [this]

theorem acquireJobLock_spec_witness :
    (0 : Nat) < 5 ∧
      acquireJobLock 100 5 "h1" none = (true, some ⟨5100, "h1"⟩) ∧
      (acquireJobLock 100 7 "h2" (acquireJobLock 100 5 "h1" none).2).1 = false := by
  refine ⟨by decide, ?_, ?_⟩
  · exact (acquireJobLock_spec 100 5 "h1" none (by decide)).1 rfl
  · exact (acquireJobLock_spec 100 5 "h1" none (by decide)).2.2.2 "h2" 7 (by decide)


/-! ## C8: scheduler tick -/

/-- C8.  On a tick the Sync Engine is invoked iff no run is in flight, the
current time is at or past the configured daily time, and the last-run date
key differs from today's; an invoked run that returns updates
`lastRunDateKey` to today iff it was not skipped by the lock, so a lock-skipped
day stays due (the same tick conditions immediately re-invoke) and a completed
day is never run twice. -/
theorem executeDueRun_spec (sc : SchedulerConfig) (now : DateParts)
    (outcome : RunOutcome) (st : SchedState) :
    ((executeDueRun sc now outcome st).2 = true ↔
      st.isRunning = false ∧
      (sc.dailyAtHour < now.hour ∨
        (now.hour = sc.dailyAtHour ∧ sc.dailyAtMinute ≤ now.minute)) ∧
      st.lastRunDateKey ≠ now.dateKey) ∧
    ((executeDueRun sc now outcome st).2 = false →
      (executeDueRun sc now outcome st).1 = st) ∧
    (∀ sbl, outcome = .finished sbl → (executeDueRun sc now outcome st).2 = true →
      ((executeDueRun sc now outcome st).1.lastRunDateKey = now.dateKey ↔ sbl = false)) ∧
    (outcome = .finished true → (executeDueRun sc now outcome st).2 = true →
      ∀ outcome2, (executeDueRun sc now outcome2 (executeDueRun sc now outcome st).1).2 = true) ∧
    (outcome = .finished false → (executeDueRun sc now outcome st).2 = true →
      ∀ now2 outcome2, now2.dateKey = now.dateKey →
        (executeDueRun sc now2 outcome2 (executeDueRun sc now outcome st).1).2 = false) := by
  by_cases h1 : st.isRunning
  · simp [executeDueRun, h1]
  · by_cases h2 : sc.dailyAtHour < now.hour ∨
        (now.hour = sc.dailyAtHour ∧ sc.dailyAtMinute ≤ now.minute)
    · by_cases h3 : st.lastRunDateKey = now.dateKey
      · simp [executeDueRun, h1, h2, h3]
      · cases outcome with
        | finished sbl =>
            cases sbl with
            | true =>
                refine ⟨by simp [executeDueRun, h1, h2, h3], ?_, ?_, ?_, ?_⟩
                · simp [executeDueRun, h1, h2, h3]
                · intro sbl h; injection h with h; subst h
                  simp [executeDueRun, h1, h2, h3, Ne.symm h3]
                · intro _ _ outcome2
                  cases outcome2 <;> simp [executeDueRun, h1, h2, h3]
                · intro h; cases h
            | false =>
                refine ⟨by simp [executeDueRun, h1, h2, h3], ?_, ?_, ?_, ?_⟩
                · simp [executeDueRun, h1, h2, h3]
                · intro sbl h; injection h with h; subst h
                  simp [executeDueRun, h1, h2, h3]
                · intro h; cases h
                · intro _ _ now2 outcome2 hdk
                  simp [executeDueRun, h1, h2, h3, hdk]
        | failed =>
            refine ⟨by simp [executeDueRun, h1, h2, h3], ?_, ?_, ?_, ?_⟩
            · simp [executeDueRun, h1, h2, h3]
            · intro sbl h; cases h
            · intro h; cases h
            · intro h; cases h
    · simp [executeDueRun, h1, h2]

theorem executeDueRun_spec_witness :
    ((executeDueRun ⟨9, 0⟩ ⟨"2026-01-02", 9, 30⟩ (.finished false) ⟨false, "2026-01-01"⟩).2
        = true) ∧
    ((executeDueRun ⟨9, 0⟩ ⟨"2026-01-02", 9, 30⟩ (.finished false)
        ⟨false, "2026-01-01"⟩).1.lastRunDateKey = "2026-01-02") ∧
    (∀ outcome2,
      (executeDueRun ⟨9, 0⟩ ⟨"2026-01-02", 10, 0⟩ outcome2
        (executeDueRun ⟨9, 0⟩ ⟨"2026-01-02", 9, 30⟩ (.finished false)
          ⟨false, "2026-01-01"⟩).1).2 = false) := by
  have hspec := executeDueRun_spec ⟨9, 0⟩ ⟨"2026-01-02", 9, 30⟩ (.finished false)
    ⟨false, "2026-01-01"⟩
  have hinv : (executeDueRun ⟨9, 0⟩ ⟨"2026-01-02", 9, 30⟩ (.finished false)
      ⟨false, "2026-01-01"⟩).2 = true :=
    hspec.1.mpr ⟨rfl, Or.inr ⟨rfl, by decide⟩, by decide⟩
  refine ⟨hinv, ?_, ?_⟩
  · exact (hspec.2.2.1 false rfl hinv).mpr rfl
  · intro outcome2
    exact hspec.2.2.2.2 rfl hinv ⟨"2026-01-02", 10, 0⟩ outcome2 rfl


/-! ## C5: the env schema has no cooldown variable -/

/-- C5 (divergence witness).  The config loader's env schema reads a fixed set
of keys that does not include any rate-limit-cooldown variable: prepending a
binding for `SOURCE_RATE_LIMIT_COOLDOWN_SECONDS` (or the adapter-named
`TWITTER_RATE_LIMIT_COOLDOWN_SECONDS`) to any environment leaves the parsed
configuration identical, and the produced `AppConfig` record carries no
cooldown field at all — the engine's `computeCooldownUntil`, which needs
`twitterRateLimitCooldownSeconds`, can never be fed from this loader. -/
theorem syncEnvParse_ignores_cooldown (env : EnvMap) (v : String) :
    syncEnvParse (("SOURCE_RATE_LIMIT_COOLDOWN_SECONDS", v) :: env) = syncEnvParse env ∧
    syncEnvParse (("TWITTER_RATE_LIMIT_COOLDOWN_SECONDS", v) :: env) = syncEnvParse env := by
  constructor <;> rfl

/-! ## C9: rate-limit classification is also message-based -/

/-- C9.  `isTwitterRateLimitError` accepts more than the typed variant: any
error whose message matches `/\(429\)|rate limit/i` is classified as a rate
limit even when it is not a `TwitterRateLimitError` instance, and an account
whose fetch throws such a generic error takes the cooldown path (cursor
re-persisted with `rate_limited_until = now + cooldown`, `failed = 1`) with no
per-account failure report. -/
theorem generic_429_takes_cooldown_path (cfg : PipelineConfig) (username : String)
    (nowMs : Nat) (env : AccountEnv) (st : AccountState) (reg : List MediaRecord)
    (e : ErrorInfo)
    (hcool : cooldownIsActive st nowMs = false)
    (hfetch : env.incremental = .err e)
    (_hinst : e.isRateLimitInstance = false)
    (hmsg : rateLimitPattern e.message = true) :
    isTwitterRateLimitError e = true ∧
    runAccount cfg username nowMs env st reg =
      ({ st with rateLimitedUntil := some (computeCooldownUntil cfg nowMs) }, reg,
       { createAccountSummary username with
           failed := 1, backfillDone := st.backfillDone, cooldownActive := true
           cooldownUntil := some (computeCooldownUntil cfg nowMs) },
       [Event.upsertState username
          { st with rateLimitedUntil := some (computeCooldownUntil cfg nowMs) }]) := by
  have hcls : isTwitterRateLimitError e = true := by
    simp [isTwitterRateLimitError, hmsg]
  refine ⟨hcls, ?_⟩
  simp [runAccount, hcool, accountBody, hfetch, hcls]

theorem generic_429_takes_cooldown_path_witness :
    (cooldownIsActive zeroAccountState 0 = false) ∧
    (rateLimitPattern "Request failed with status code 429 (429)" = true) ∧
    (isTwitterRateLimitError ⟨false, "Request failed with status code 429 (429)"⟩ = true ∧
     runAccount
        ⟨["a"], 1, 5, "/tmp/work", 10, 7200, 10⟩ "a" 0
        ⟨.err ⟨false, "Request failed with status code 429 (429)"⟩, .ok [] none,
         fun _ _ => .ok 1, fun _ => none⟩
        zeroAccountState [] =
      ({ zeroAccountState with rateLimitedUntil := some 7200000 }, [],
       { createAccountSummary "a" with
           failed := 1, backfillDone := false, cooldownActive := true
           cooldownUntil := some 7200000 },
       [Event.upsertState "a" { zeroAccountState with rateLimitedUntil := some 7200000 }])) := by
  refine ⟨by decide, by decide, ?_⟩
  exact generic_429_takes_cooldown_path
    ⟨["a"], 1, 5, "/tmp/work", 10, 7200, 10⟩ "a" 0
    ⟨.err ⟨false, "Request failed with status code 429 (429)"⟩, .ok [] none,
     fun _ _ => .ok 1, fun _ => none⟩
    zeroAccountState [] ⟨false, "Request failed with status code 429 (429)"⟩
    (by decide) rfl rfl (by decide)


/-! ## C2: budget-bounded selection -/

def sumMedia (ts : List MediaTweet) : Nat := (ts.map (fun t => t.media.length)).sum

theorem selectTweets_spent (ts sel : List MediaTweet) (b : Int) (hb : b ≤ 0) :
    selectTweets ts b sel = sel := by
  cases ts with
  | nil => rfl
  | cons t ts => simp [selectTweets, hb]

theorem selectTweets_sum_le (ts : List MediaTweet) (b : Int) (sel : List MediaTweet)
    (hsel : sel ≠ []) :
    (sumMedia (selectTweets ts b sel) : Int) ≤ sumMedia sel + max b 0 := by
  induction ts generalizing b sel with
  | nil =>
      simp only [selectTweets]
      have : (0 : Int) ≤ max b 0 := le_max_right b 0
      omega
  | cons t ts ih =>
      by_cases hb : b ≤ 0
      · rw [selectTweets_spent _ _ _ hb]
        have : (0 : Int) ≤ max b 0 := le_max_right b 0
        omega
      · simp only [selectTweets, if_neg hb]
        by_cases hskip : (t.media.length : Int) > b ∧ 0 < sel.length
        · rw [if_pos hskip]
          exact ih b sel hsel
        · rw [if_neg hskip]
          have hsel' : sel ++ [t] ≠ [] := by simp
          have hrec := ih (b - t.media.length) (sel ++ [t]) hsel'
          have hsum : sumMedia (sel ++ [t]) = sumMedia sel + t.media.length := by
            simp [sumMedia]
          have hc : (t.media.length : Int) ≤ b := by
            rcases not_and_or.mp hskip with h | h
            · omega
            · exfalso; exact h (List.length_pos.mpr hsel)
          rw [hsum] at hrec
          have hmax1 : max (b - (t.media.length : Int)) 0 = b - t.media.length := by
            omega
          have hmax2 : max b 0 = b := by omega
          omega

/-- Selection from an empty accumulator: either the budget bounds the total
media of the selection, or exactly one over-budget tweet was selected (the
first, when nothing had been selected yet). -/
theorem selectTweets_budget_bound (cands : List MediaTweet) (m : Nat) (hm : 0 < m) :
    sumMedia (selectTweets cands (m : Int) []) ≤ m ∨
      ∃ t, selectTweets cands (m : Int) [] = [t] ∧ (m : Int) < t.media.length := by
  cases cands with
  | nil => left; simp [selectTweets, sumMedia]
  | cons t ts =>
      have hb : ¬ ((m : Int) ≤ 0) := by exact_mod_cast Nat.not_le.mpr hm
      by_cases hc : (t.media.length : Int) ≤ m
      · left
        have h1 : selectTweets (t :: ts) (m : Int) [] =
            selectTweets ts ((m : Int) - t.media.length) [t] := by
          simp [selectTweets, hb]
        rw [h1]
        have h2 := selectTweets_sum_le ts ((m : Int) - t.media.length) [t] (by simp)
        have h3 : sumMedia [t] = t.media.length := by simp [sumMedia]
        rw [h3] at h2
        have hmax : max ((m : Int) - t.media.length) 0 = (m : Int) - t.media.length := by
          omega
        rw [hmax] at h2
        omega
      · right
        refine ⟨t, ?_, by omega⟩
        have h1 : selectTweets (t :: ts) (m : Int) [] =
            selectTweets ts ((m : Int) - t.media.length) [t] := by
          simp [selectTweets, hb]
        rw [h1, selectTweets_spent]
        omega

theorem procStep_totals (cfg : PipelineConfig) (username tweetId : String)
    (nowMs : Nat) (dl : Nat → DownloadOutcome) (i : Nat) (m : TweetMedia)
    (s : LoopState) :
    (procStep cfg username tweetId nowMs dl i m s).1.totals.uploaded =
      s.totals.uploaded ∧
    (procStep cfg username tweetId nowMs dl i m s).1.files.length ≤
      s.files.length + 1 := by
  simp only [procStep]
  split
  · exact ⟨rfl, by simp⟩
  · split
    · exact ⟨rfl, by simp⟩
    · split
      · exact ⟨rfl, by simp⟩
      · exact ⟨rfl, by simp⟩

theorem procLoop_uploaded_eq (cfg : PipelineConfig) (username tweetId : String)
    (nowMs : Nat) (dl : Nat → DownloadOutcome) (l : List (Nat × TweetMedia))
    (s : LoopState) :
    (procLoop cfg username tweetId nowMs dl l s).1.totals.uploaded =
      s.totals.uploaded := by
  induction l generalizing s with
  | nil => rfl
  | cons p rest ih =>
      obtain ⟨i, m⟩ := p
      simp only [procLoop]
      have hstep := procStep_totals cfg username tweetId nowMs dl i m s
      rcases hna : procStep cfg username tweetId nowMs dl i m s with ⟨s1, thrown⟩
      rw [hna] at hstep
      simp only at hstep
      cases thrown
      · simpa using (ih s1).trans hstep.1
      · simpa using hstep.1

theorem procLoop_files_le (cfg : PipelineConfig) (username tweetId : String)
    (nowMs : Nat) (dl : Nat → DownloadOutcome) (l : List (Nat × TweetMedia))
    (s : LoopState) :
    (procLoop cfg username tweetId nowMs dl l s).1.files.length ≤
      s.files.length + l.length := by
  induction l generalizing s with
  | nil => simp [procLoop]
  | cons p rest ih =>
      obtain ⟨i, m⟩ := p
      simp only [procLoop]
      have hstep := procStep_totals cfg username tweetId nowMs dl i m s
      rcases hna : procStep cfg username tweetId nowMs dl i m s with ⟨s1, thrown⟩
      rw [hna] at hstep
      simp only at hstep
      dsimp only
      cases thrown
      · have := ih s1
        simp
        omega
      · simp
        omega

theorem enumFrom_length (start : Nat) (l : List α) : (enumFrom start l).length = l.length := by
  induction l generalizing start with
  | nil => rfl
  | cons x xs ih => simp [enumFrom, ih]

/-- Each tweet contributes at most `media.length` uploads. -/
theorem processTweet_uploaded_le (cfg : PipelineConfig) (username : String)
    (nowMs : Nat) (dl : Nat → DownloadOutcome) (send : Option (List String))
    (reg : List MediaRecord) (tweet : MediaTweet) :
    (processTweet cfg username nowMs dl send reg tweet).1.uploaded ≤
      tweet.media.length := by
  have hupl := procLoop_uploaded_eq cfg username tweet.id nowMs dl
    (enumFrom 0 tweet.media) ⟨⟨0, 0, 0⟩, reg, [], []⟩
  have hfl := procLoop_files_le cfg username tweet.id nowMs dl
    (enumFrom 0 tweet.media) ⟨⟨0, 0, 0⟩, reg, [], []⟩
  rw [enumFrom_length] at hfl
  simp only [List.length_nil, Nat.zero_add] at hfl
  simp only [processTweet]
  rcases hre : procLoop cfg username tweet.id nowMs dl (enumFrom 0 tweet.media)
      ⟨⟨0, 0, 0⟩, reg, [], []⟩ with ⟨s, thrown⟩
  rw [hre] at hupl hfl
  simp only at hupl hfl
  dsimp only
  cases thrown
  · by_cases hemp : s.files.isEmpty
    · simp [hemp]
      omega
    · cases send with
      | none =>
          simp [hemp]
          omega
      | some ids =>
          simp [hemp]
          omega
  · simp
    omega

theorem processSelected_uploaded_le (cfg : PipelineConfig) (username : String)
    (nowMs : Nat) (env : AccountEnv) (sel : List MediaTweet) (reg : List MediaRecord) :
    (processSelected cfg username nowMs env sel reg).1.uploaded ≤ sumMedia sel := by
  induction sel generalizing reg with
  | nil => simp [processSelected, sumMedia]
  | cons t ts ih =>
      simp only [processSelected]
      rcases hpt : processTweet cfg username nowMs (env.download t.id) (env.send t.id)
          reg t with ⟨tot, reg1, evs⟩
      have h1 := processTweet_uploaded_le cfg username nowMs (env.download t.id)
        (env.send t.id) reg t
      rw [hpt] at h1
      simp only at h1
      dsimp only
      have h2 := ih reg1
      rcases hps : processSelected cfg username nowMs env ts reg1 with ⟨tot2, reg2, evs2⟩
      rw [hps] at h2
      simp only at h2
      have hsum : sumMedia (t :: ts) = t.media.length + sumMedia ts := by
        simp [sumMedia]
      rw [hsum]
      dsimp only
      omega

/-- C2 (amended).  Per account: the budget-bounded selection keeps the total
media of the selected tweets within `maxMediaPerRun` unless the very first
selected tweet alone exceeds the budget (in which case it is the only
selection), and the number of media actually uploaded for the account never
exceeds the total media of its selection.  (The budget is reset for every
account, so the *run* total is bounded by `accounts × maxMediaPerRun`, not by
`maxMediaPerRun` — see the counterexample.) -/
theorem account_budget_bound (cfg : PipelineConfig) (username : String) (nowMs : Nat)
    (env : AccountEnv) (cands : List MediaTweet) (reg : List MediaRecord)
    (hm : 0 < cfg.maxMediaPerRun) :
    ((processSelected cfg username nowMs env
        (selectTweets cands (cfg.maxMediaPerRun : Int) []) reg).1.uploaded ≤
      sumMedia (selectTweets cands (cfg.maxMediaPerRun : Int) [])) ∧
    (sumMedia (selectTweets cands (cfg.maxMediaPerRun : Int) []) ≤ cfg.maxMediaPerRun ∨
      ∃ t, selectTweets cands (cfg.maxMediaPerRun : Int) [] = [t] ∧
        (cfg.maxMediaPerRun : Int) < t.media.length) := by
  exact ⟨processSelected_uploaded_le cfg username nowMs env _ reg,
    selectTweets_budget_bound cands cfg.maxMediaPerRun hm⟩


theorem account_budget_bound_witness :
    0 < (3 : Nat) ∧
    (((processSelected ⟨["a"], 1, 3, "/tmp/work", 10, 7200, 100⟩ "a" 0
        ⟨.ok [] none, .ok [] none, fun _ _ => .ok 1, fun _ => some ["9"]⟩
        (selectTweets
          [⟨"1", "a", "", "u1", 0, [⟨"x", "p1", .photo⟩, ⟨"y", "p2", .photo⟩]⟩,
           ⟨"2", "a", "", "u2", 0, [⟨"z", "p3", .photo⟩, ⟨"w", "p4", .photo⟩]⟩]
          ((3 : Nat) : Int) []) []).1.uploaded ≤
      sumMedia (selectTweets
          [⟨"1", "a", "", "u1", 0, [⟨"x", "p1", .photo⟩, ⟨"y", "p2", .photo⟩]⟩,
           ⟨"2", "a", "", "u2", 0, [⟨"z", "p3", .photo⟩, ⟨"w", "p4", .photo⟩]⟩]
          ((3 : Nat) : Int) [])) ∧
    (sumMedia (selectTweets
          [⟨"1", "a", "", "u1", 0, [⟨"x", "p1", .photo⟩, ⟨"y", "p2", .photo⟩]⟩,
           ⟨"2", "a", "", "u2", 0, [⟨"z", "p3", .photo⟩, ⟨"w", "p4", .photo⟩]⟩]
          ((3 : Nat) : Int) []) ≤ 3 ∨
      ∃ t, selectTweets
          [⟨"1", "a", "", "u1", 0, [⟨"x", "p1", .photo⟩, ⟨"y", "p2", .photo⟩]⟩,
           ⟨"2", "a", "", "u2", 0, [⟨"z", "p3", .photo⟩, ⟨"w", "p4", .photo⟩]⟩]
          ((3 : Nat) : Int) [] = [t] ∧ ((3 : Nat) : Int) < t.media.length)) :=
  ⟨by decide,
   account_budget_bound ⟨["a"], 1, 3, "/tmp/work", 10, 7200, 100⟩ "a" 0
     ⟨.ok [] none, .ok [] none, fun _ _ => .ok 1, fun _ => some ["9"]⟩
     [⟨"1", "a", "", "u1", 0, [⟨"x", "p1", .photo⟩, ⟨"y", "p2", .photo⟩]⟩,
      ⟨"2", "a", "", "u2", 0, [⟨"z", "p3", .photo⟩, ⟨"w", "p4", .photo⟩]⟩] []
     (by decide)⟩

/-- Inputs of the C2 counterexample: two accounts, budget 1, each with one
fresh single-photo post; every download and group send succeeds. -/
def c2tweetA : MediaTweet := ⟨"1", "a", "", "https://x.com/a/status/1", 0, [⟨"m1", "u1", .photo⟩]⟩

def c2tweetB : MediaTweet := ⟨"2", "b", "", "https://x.com/b/status/2", 0, [⟨"m2", "u2", .photo⟩]⟩

def c2env (tw : MediaTweet) : AccountEnv :=
  { incremental := .ok [tw] none
    backfill := .ok [] none
    download := fun _ _ => .ok 1
    send := fun _ => some ["10"] }

def c2cfg : PipelineConfig :=
  { twitterUsers := ["a", "b"], backfillPagesPerRun := 1, maxMediaPerRun := 1
    downloadTmpDir := "/tmp/work", jobLockTtlSeconds := 10
    twitterRateLimitCooldownSeconds := 7200, maxUploadVideoBytes := 10 }

set_option maxRecDepth 40000 in
/-- C2 is false as stated: a run over two accounts uploads 2 media although
`maxMediaPerRun = 1` and no post's media count exceeds the budget (so the
single-oversized-first-post exception cannot apply) — the budget is re-armed
for every account, bounding each account but not the run. -/
theorem run_total_exceeds_budget :
    ((runPipeline c2cfg "h" 0 (fun u => if u = "a" then c2env c2tweetA else c2env c2tweetB)
        ⟨[], [], none⟩).1.accounts.map (fun a => a.uploaded)).sum = 2 ∧
    c2cfg.maxMediaPerRun = 1 ∧
    c2tweetA.media.length ≤ c2cfg.maxMediaPerRun ∧
    c2tweetB.media.length ≤ c2cfg.maxMediaPerRun := by
  refine ⟨by decide, by decide, by decide, by decide⟩


/-! ## C3: error handling at the account boundary -/

/-- C3 (amended).  When an account's *fetch* (incremental or backfill) throws,
the error reaches the account-level handler and the cursor read at run start
is not corrupted: on a rate-limit-classified error it is re-persisted with
only `rate_limited_until := now + cooldown` changed, `failed` is recorded as 1
and no per-account failure report is sent; on any other error the stored
cursor is left untouched (no write at all), `failed = 1`, and a text failure
report is sent before the run continues.  (Per-post errors never reach this
handler — see the counterexample.) -/
theorem fetch_error_preserves_cursor (cfg : PipelineConfig) (username : String)
    (nowMs : Nat) (env : AccountEnv) (st : AccountState) (reg : List MediaRecord)
    (e : ErrorInfo)
    (hcool : cooldownIsActive st nowMs = false)
    (herr : env.incremental = .err e ∨
      (∃ tweets nc, env.incremental = .ok tweets nc ∧ st.backfillDone = false ∧
        env.backfill = .err e)) :
    (runAccount cfg username nowMs env st reg).2.1 = reg ∧
    (runAccount cfg username nowMs env st reg).2.2.1.failed = 1 ∧
    (isTwitterRateLimitError e = true →
      (runAccount cfg username nowMs env st reg).1 =
        { st with rateLimitedUntil := some (computeCooldownUntil cfg nowMs) } ∧
      (runAccount cfg username nowMs env st reg).2.2.2 =
        [Event.upsertState username
          { st with rateLimitedUntil := some (computeCooldownUntil cfg nowMs) }]) ∧
    (isTwitterRateLimitError e = false →
      (runAccount cfg username nowMs env st reg).1 = st ∧
      (runAccount cfg username nowMs env st reg).2.2.2 =
        [Event.sendText (ReportMsg.failureReport ("account:" ++ username) e.message)]) := by
  have hbody : ∃ ps, accountBody cfg username nowMs env st reg = .inl (e, ps) := by
    rcases herr with hinc | ⟨tweets, nc, hinc, hbf, hbe⟩
    · refine ⟨createAccountSummary username, ?_⟩
      simp only [accountBody, hinc]
    · refine ⟨{ createAccountSummary username with
          incrementalTweetsCandidates := (takeUntilSeen st.latestSeenTweetId tweets).length }, ?_⟩
      simp only [accountBody, hinc, hbf, Bool.false_eq_true, if_false, hbe]
  obtain ⟨ps, hbody⟩ := hbody
  by_cases hcls : isTwitterRateLimitError e
  · simp [runAccount, hcool, hbody, hcls]
  · simp [runAccount, hcool, hbody, hcls]

theorem fetch_error_preserves_cursor_witness :
    (cooldownIsActive ⟨some "7", some "k", false, none⟩ 0 = false) ∧
    (isTwitterRateLimitError ⟨false, "Response status: 500"⟩ = false) ∧
    ((runAccount ⟨["a"], 1, 5, "/tmp/work", 10, 7200, 10⟩ "a" 0
        ⟨.err ⟨false, "Response status: 500"⟩, .ok [] none, fun _ _ => .ok 1, fun _ => none⟩
        ⟨some "7", some "k", false, none⟩ []).1 = ⟨some "7", some "k", false, none⟩ ∧
     (runAccount ⟨["a"], 1, 5, "/tmp/work", 10, 7200, 10⟩ "a" 0
        ⟨.err ⟨false, "Response status: 500"⟩, .ok [] none, fun _ _ => .ok 1, fun _ => none⟩
        ⟨some "7", some "k", false, none⟩ []).2.2.2 =
       [Event.sendText (ReportMsg.failureReport "account:a" "Response status: 500")]) := by
  have h := fetch_error_preserves_cursor ⟨["a"], 1, 5, "/tmp/work", 10, 7200, 10⟩ "a" 0
    ⟨.err ⟨false, "Response status: 500"⟩, .ok [] none, fun _ _ => .ok 1, fun _ => none⟩
    ⟨some "7", some "k", false, none⟩ [] ⟨false, "Response status: 500"⟩
    (by decide) (Or.inl rfl)
  exact ⟨by decide, by decide, h.2.2.2 (by decide)⟩

def isSendTextEv : Event → Bool
  | .sendText _ => true
  | _ => false

def c3tweet : MediaTweet :=
  ⟨"5", "a", "", "https://x.com/a/status/5", 0, [⟨"m1", "u1", .photo⟩]⟩

def c3env : AccountEnv :=
  ⟨.ok [c3tweet] none, .ok [] none, fun _ _ => .err, fun _ => some ["10"]⟩

def c3cfg : PipelineConfig := ⟨["a"], 1, 5, "/tmp/work", 10, 7200, 10⟩

set_option maxRecDepth 40000 in
/-- C3 is false as stated for *per-post* failures: when every download of a
post fails (all retries exhausted), the account still records `failed = 1`,
yet the success-path write runs — `latest_seen_tweet_id` advances from `none`
to the new post id (not its pre-run value), `rate_limited_until` is set to
`none` (not `now + cooldown`), and no failure report is sent.  Per-post errors
are swallowed inside `processTweet`, contradicting the claim's "fails at any
point during … per-post processing" scope. -/
theorem per_post_failure_moves_cursor :
    (runAccount c3cfg "a" 0 c3env zeroAccountState []).2.2.1.failed = 1 ∧
    zeroAccountState.latestSeenTweetId = none ∧
    (runAccount c3cfg "a" 0 c3env zeroAccountState []).1.latestSeenTweetId = some "5" ∧
    (runAccount c3cfg "a" 0 c3env zeroAccountState []).1.rateLimitedUntil = none ∧
    ((runAccount c3cfg "a" 0 c3env zeroAccountState []).2.2.2.filter isSendTextEv) = [] := by
  refine ⟨by decide, by decide, by decide, by decide, by decide⟩

/-! ## C7: zero-post runs and the cursor -/

/-- C7 (amended).  For an account whose backfill is already finished
(`backfill_done = true`, stored cursor `null`) and whose incremental fetch
returns zero media-bearing posts, the successful-completion write leaves every
cursor field unchanged except `rate_limited_until`, which is set to `null`;
nothing is uploaded and the only effect is that single upsert.  (When
`backfill_done` is still false, the write refreshes `backfill_cursor` /
`backfill_done` from the backfill response even when it carried zero posts —
see the counterexample.) -/
theorem zero_posts_clears_cooldown_only (cfg : PipelineConfig) (username : String)
    (nowMs : Nat) (env : AccountEnv) (st : AccountState) (reg : List MediaRecord)
    (nc : Option String)
    (hcool : cooldownIsActive st nowMs = false)
    (hdone : st.backfillDone = true)
    (hcur : st.backfillCursor = none)
    (hinc : env.incremental = .ok [] nc) :
    runAccount cfg username nowMs env st reg =
      ({ st with rateLimitedUntil := none }, reg,
       { createAccountSummary username with backfillDone := true },
       [Event.upsertState username { st with rateLimitedUntil := none }]) := by
  obtain ⟨lst, cur, done, ru⟩ := st
  obtain rfl : done = true := hdone
  obtain rfl : cur = none := hcur
  simp only [runAccount, hcool, Bool.false_eq_true, if_false, accountBody, hinc]
  rfl

theorem zero_posts_clears_cooldown_only_witness :
    (cooldownIsActive ⟨some "9", none, true, some 3⟩ 5 = false) ∧
    runAccount ⟨["a"], 1, 5, "/tmp/work", 10, 7200, 10⟩ "a" 5
        ⟨.ok [] none, .ok [] none, fun _ _ => .ok 1, fun _ => none⟩
        ⟨some "9", none, true, some 3⟩ [] =
      (⟨some "9", none, true, none⟩, [],
       { createAccountSummary "a" with backfillDone := true },
       [Event.upsertState "a" ⟨some "9", none, true, none⟩]) := by
  refine ⟨by decide, ?_⟩
  exact zero_posts_clears_cooldown_only ⟨["a"], 1, 5, "/tmp/work", 10, 7200, 10⟩ "a" 5
    ⟨.ok [] none, .ok [] none, fun _ _ => .ok 1, fun _ => none⟩
    ⟨some "9", none, true, some 3⟩ [] none (by decide) rfl rfl rfl

def c7state : AccountState := ⟨some "9", some "c", false, none⟩

def c7env : AccountEnv := ⟨.ok [] none, .ok [] none, fun _ _ => .ok 1, fun _ => some ["1"]⟩

def c7cfg : PipelineConfig := ⟨["a"], 1, 5, "/tmp/work", 10, 7200, 10⟩

/-- C7 is false as stated: with `backfill_done = false` and a stored backfill
cursor, a run in which the source returns zero media-bearing posts in both
directions still rewrites `backfill_cursor` from `some "c"` to `none` and
flips `backfill_done` to `true` — more than `rate_limited_until := null`
changes. -/
theorem zero_posts_counterexample :
    c7state.backfillCursor = some "c" ∧
    c7state.backfillDone = false ∧
    (runAccount c7cfg "a" 0 c7env c7state []).1 = ⟨some "9", none, true, none⟩ ∧
    (runAccount c7cfg "a" 0 c7env c7state []).1 ≠
      { c7state with rateLimitedUntil := none } := by
  refine ⟨by decide, by decide, by decide, by decide⟩


/-! ## Shape lemmas for the media loop (shared by C1/C6/C10) -/

/-- Exhaustive case analysis of one media-loop iteration: dedupe skip,
download failure (throw), oversize skip, or buffering the download. -/
theorem procStep_cases (cfg : PipelineConfig) (username tweetId : String)
    (nowMs : Nat) (dl : Nat → DownloadOutcome) (i : Nat) (m : TweetMedia)
    (s : LoopState) :
    (isMediaUploaded (makeMediaKey tweetId m.url) s.reg = true ∧
      procStep cfg username tweetId nowMs dl i m s =
        ({ s with totals := { s.totals with skipped := s.totals.skipped + 1 } }, false)) ∨
    (isMediaUploaded (makeMediaKey tweetId m.url) s.reg = false ∧ dl i = .err ∧
      procStep cfg username tweetId nowMs dl i m s =
        ({ s with events := s.events ++
            [Event.download (makeMediaKey tweetId m.url)
              (mediaPath cfg username (makeMediaKey tweetId m.url) m.type)] }, true)) ∨
    (∃ size, isMediaUploaded (makeMediaKey tweetId m.url) s.reg = false ∧
      dl i = .ok size ∧ (m.type ≠ .photo ∧ cfg.maxUploadVideoBytes < size) ∧
      procStep cfg username tweetId nowMs dl i m s =
        ({ s with
            totals := { s.totals with skipped := s.totals.skipped + 1 }
            reg := markMediaUploaded (oversizeRecord username tweetId nowMs m) s.reg
            events := s.events ++
              [Event.download (makeMediaKey tweetId m.url)
                (mediaPath cfg username (makeMediaKey tweetId m.url) m.type),
               Event.markMedia (oversizeRecord username tweetId nowMs m),
               Event.removeFile (mediaPath cfg username (makeMediaKey tweetId m.url) m.type)] },
          false)) ∨
    (∃ size, isMediaUploaded (makeMediaKey tweetId m.url) s.reg = false ∧
      dl i = .ok size ∧ ¬(m.type ≠ .photo ∧ cfg.maxUploadVideoBytes < size) ∧
      procStep cfg username tweetId nowMs dl i m s =
        ({ s with
            files := s.files ++
              [{ mediaKey := makeMediaKey tweetId m.url, mediaUrl := m.url
                 mediaType := m.type
                 path := mediaPath cfg username (makeMediaKey tweetId m.url) m.type
                 fileSizeBytes := size }]
            events := s.events ++
              [Event.download (makeMediaKey tweetId m.url)
                (mediaPath cfg username (makeMediaKey tweetId m.url) m.type)] }, false)) := by
  by_cases hup : isMediaUploaded (makeMediaKey tweetId m.url) s.reg = true
  · left
    exact ⟨hup, by simp [procStep, hup]⟩
  · have hup' : isMediaUploaded (makeMediaKey tweetId m.url) s.reg = false := by
      simpa using hup
    cases hdl : dl i with
    | err =>
        right; left
        exact ⟨hup', rfl, by simp [procStep, hup', hdl]⟩
    | ok size =>
        by_cases hbig : m.type ≠ .photo ∧ cfg.maxUploadVideoBytes < size
        · right; right; left
          refine ⟨size, hup', rfl, hbig, ?_⟩
          simp [procStep, hup', hdl, hbig, List.append_assoc]
        · right; right; right
          refine ⟨size, hup', rfl, hbig, ?_⟩
          simp [procStep, hup', hdl, hbig]

/-- Splitting the loop at any point. -/
theorem procLoop_append (cfg : PipelineConfig) (username tweetId : String)
    (nowMs : Nat) (dl : Nat → DownloadOutcome) (l1 l2 : List (Nat × TweetMedia))
    (s : LoopState) :
    procLoop cfg username tweetId nowMs dl (l1 ++ l2) s =
      (if (procLoop cfg username tweetId nowMs dl l1 s).2 = true
       then procLoop cfg username tweetId nowMs dl l1 s
       else procLoop cfg username tweetId nowMs dl l2
         (procLoop cfg username tweetId nowMs dl l1 s).1) := by
  induction l1 generalizing s with
  | nil => simp [procLoop]
  | cons p rest ih =>
      obtain ⟨i, m⟩ := p
      simp only [List.cons_append, procLoop]
      rcases hna : procStep cfg username tweetId nowMs dl i m s with ⟨s1, thrown⟩
      cases thrown
      · dsimp only
        exact ih s1
      · simp

theorem enumFrom_append (start : Nat) (xs ys : List α) :
    enumFrom start (xs ++ ys) = enumFrom start xs ++ enumFrom (start + xs.length) ys := by
  induction xs generalizing start with
  | nil => simp [enumFrom]
  | cons x xs ih =>
      simp only [List.cons_append, enumFrom, List.length_cons, List.append_eq]
      rw [ih (start + 1)]
      have h : start + (xs.length + 1) = start + 1 + xs.length := by omega
      rw [h]

theorem enumFrom_mem {α : Type} {p : Nat × α} (start : Nat) (l : List α)
    (h : p ∈ enumFrom start l) : p.2 ∈ l := by
  induction l generalizing start with
  | nil => cases h
  | cons x xs ih =>
      simp only [enumFrom, List.mem_cons] at h
      rcases h with rfl | h
      · simp
      · exact List.mem_cons_of_mem _ (ih (start + 1) h)


theorem procLoop_events_mono (cfg : PipelineConfig) (username tweetId : String)
    (nowMs : Nat) (dl : Nat → DownloadOutcome) (l : List (Nat × TweetMedia))
    (s : LoopState) (ev : Event) (h : ev ∈ s.events) :
    ev ∈ (procLoop cfg username tweetId nowMs dl l s).1.events := by
  induction l generalizing s with
  | nil => simpa [procLoop] using h
  | cons p rest ih =>
      obtain ⟨i, m⟩ := p
      simp only [procLoop]
      rcases procStep_cases cfg username tweetId nowMs dl i m s with
        ⟨hup, heq⟩ | ⟨hup, hdl, heq⟩ | ⟨size, hup, hdl, hbig, heq⟩ |
        ⟨size, hup, hdl, hbig, heq⟩ <;> rw [heq] <;>
        simp only [Bool.false_eq_true, if_false, if_true]
      · exact ih _ h
      · exact List.mem_append_left _ h
      · exact ih _ (List.mem_append_left _ h)
      · exact ih _ (List.mem_append_left _ h)

theorem procLoop_sendMedia_origin (cfg : PipelineConfig) (username tweetId : String)
    (nowMs : Nat) (dl : Nat → DownloadOutcome) (l : List (Nat × TweetMedia))
    (s : LoopState) (fs : List LocalFile)
    (h : Event.sendMedia fs ∈ (procLoop cfg username tweetId nowMs dl l s).1.events) :
    Event.sendMedia fs ∈ s.events := by
  induction l generalizing s with
  | nil => simpa [procLoop] using h
  | cons p rest ih =>
      obtain ⟨i, m⟩ := p
      simp only [procLoop] at h
      rcases procStep_cases cfg username tweetId nowMs dl i m s with
        ⟨hup, heq⟩ | ⟨hup, hdl, heq⟩ | ⟨size, hup, hdl, hbig, heq⟩ |
        ⟨size, hup, hdl, hbig, heq⟩ <;> rw [heq] at h <;>
        simp only [Bool.false_eq_true, if_false, if_true] at h
      · have hres := ih _ h
        exact hres
      · rcases List.mem_append.mp h with h | h
        · exact h
        · simp at h
      · rcases List.mem_append.mp (ih _ h) with h | h
        · exact h
        · simp at h
      · rcases List.mem_append.mp (ih _ h) with h | h
        · exact h
        · simp at h

theorem procLoop_markMedia_origin (cfg : PipelineConfig) (username tweetId : String)
    (nowMs : Nat) (dl : Nat → DownloadOutcome) (l : List (Nat × TweetMedia))
    (s : LoopState) (r : MediaRecord)
    (h : Event.markMedia r ∈ (procLoop cfg username tweetId nowMs dl l s).1.events) :
    Event.markMedia r ∈ s.events ∨ r.status = .skipped_oversize := by
  induction l generalizing s with
  | nil => left; simpa [procLoop] using h
  | cons p rest ih =>
      obtain ⟨i, m⟩ := p
      simp only [procLoop] at h
      rcases procStep_cases cfg username tweetId nowMs dl i m s with
        ⟨hup, heq⟩ | ⟨hup, hdl, heq⟩ | ⟨size, hup, hdl, hbig, heq⟩ |
        ⟨size, hup, hdl, hbig, heq⟩ <;> rw [heq] at h <;>
        simp only [Bool.false_eq_true, if_false, if_true] at h
      · have hres := ih _ h
        exact hres
      · rcases List.mem_append.mp h with h | h
        · exact Or.inl h
        · simp at h
      · rcases ih _ h with h | h
        · rcases List.mem_append.mp h with h | h
          · exact Or.inl h
          · right
            simp only [List.mem_cons, List.not_mem_nil, or_false] at h
            rcases h with h | h | h
            · exact absurd h (by simp)
            · injection h with h2
              rw [h2]
              rfl
            · exact absurd h (by simp)
        · exact Or.inr h
      · rcases ih _ h with h | h
        · rcases List.mem_append.mp h with h | h
          · exact Or.inl h
          · simp at h
        · exact Or.inr h

theorem procLoop_files_origin (cfg : PipelineConfig) (username tweetId : String)
    (nowMs : Nat) (dl : Nat → DownloadOutcome) (l : List (Nat × TweetMedia))
    (s : LoopState) (f : LocalFile)
    (h : f ∈ (procLoop cfg username tweetId nowMs dl l s).1.files) :
    f ∈ s.files ∨ ∃ p ∈ l, f.mediaKey = makeMediaKey tweetId p.2.url := by
  induction l generalizing s with
  | nil => left; simpa [procLoop] using h
  | cons p rest ih =>
      obtain ⟨i, m⟩ := p
      simp only [procLoop] at h
      rcases procStep_cases cfg username tweetId nowMs dl i m s with
        ⟨hup, heq⟩ | ⟨hup, hdl, heq⟩ | ⟨size, hup, hdl, hbig, heq⟩ |
        ⟨size, hup, hdl, hbig, heq⟩ <;> rw [heq] at h <;>
        simp only [Bool.false_eq_true, if_false, if_true] at h
      · rcases ih _ h with hin | ⟨q, hq, hk⟩
        · exact Or.inl hin
        · exact Or.inr ⟨q, List.mem_cons_of_mem _ hq, hk⟩
      · exact Or.inl h
      · rcases ih _ h with hin | ⟨q, hq, hk⟩
        · exact Or.inl hin
        · exact Or.inr ⟨q, List.mem_cons_of_mem _ hq, hk⟩
      · rcases ih _ h with hin | ⟨q, hq, hk⟩
        · rcases List.mem_append.mp hin with hin | hin
          · exact Or.inl hin
          · simp only [List.mem_singleton] at hin
            subst hin
            exact Or.inr ⟨(i, m), List.mem_cons_self _ _, rfl⟩
        · exact Or.inr ⟨q, List.mem_cons_of_mem _ hq, hk⟩

theorem procLoop_rec_persists (cfg : PipelineConfig) (username tweetId : String)
    (nowMs : Nat) (dl : Nat → DownloadOutcome) (l : List (Nat × TweetMedia))
    (s : LoopState) (q : MediaRecord)
    (hq : q ∈ s.reg)
    (hk : ∀ p ∈ l, makeMediaKey tweetId p.2.url ≠ q.mediaKey) :
    q ∈ (procLoop cfg username tweetId nowMs dl l s).1.reg := by
  induction l generalizing s with
  | nil => simpa [procLoop] using hq
  | cons p rest ih =>
      obtain ⟨i, m⟩ := p
      simp only [procLoop]
      have hkm : makeMediaKey tweetId m.url ≠ q.mediaKey :=
        hk (i, m) (List.mem_cons_self _ _)
      have hkrest : ∀ p ∈ rest, makeMediaKey tweetId p.2.url ≠ q.mediaKey :=
        fun p hp => hk p (List.mem_cons_of_mem _ hp)
      rcases procStep_cases cfg username tweetId nowMs dl i m s with
        ⟨hup, heq⟩ | ⟨hup, hdl, heq⟩ | ⟨size, hup, hdl, hbig, heq⟩ |
        ⟨size, hup, hdl, hbig, heq⟩ <;> rw [heq] <;>
        simp only [Bool.false_eq_true, if_false, if_true]
      · exact ih _ hq hkrest
      · exact hq
      · refine ih _ ?_ hkrest
        refine mark_preserves_mem _ q _ hq ?_
        simpa [oversizeRecord] using fun hc => hkm hc.symm
      · exact ih _ hq hkrest

theorem procLoop_nodup (cfg : PipelineConfig) (username tweetId : String)
    (nowMs : Nat) (dl : Nat → DownloadOutcome) (l : List (Nat × TweetMedia))
    (s : LoopState) (h : (regKeys s.reg).Nodup) :
    (regKeys (procLoop cfg username tweetId nowMs dl l s).1.reg).Nodup := by
  induction l generalizing s with
  | nil => simpa [procLoop] using h
  | cons p rest ih =>
      obtain ⟨i, m⟩ := p
      simp only [procLoop]
      rcases procStep_cases cfg username tweetId nowMs dl i m s with
        ⟨hup, heq⟩ | ⟨hup, hdl, heq⟩ | ⟨size, hup, hdl, hbig, heq⟩ |
        ⟨size, hup, hdl, hbig, heq⟩ <;> rw [heq] <;>
        simp only [Bool.false_eq_true, if_false, if_true]
      · exact ih _ h
      · exact h
      · exact ih _ (regKeys_mark_nodup _ _ h)
      · exact ih _ h

/-- A key already present in the registry is never downloaded again, never
enters the send buffer, and stays in the registry for the rest of the loop. -/
theorem procLoop_registered_key (cfg : PipelineConfig) (username tweetId : String)
    (nowMs : Nat) (dl : Nat → DownloadOutcome) (l : List (Nat × TweetMedia))
    (s : LoopState) (key : String)
    (hreg : key ∈ regKeys s.reg)
    (hfiles : ∀ f ∈ s.files, f.mediaKey ≠ key)
    (hev : ∀ p, Event.download key p ∉ s.events) :
    key ∈ regKeys (procLoop cfg username tweetId nowMs dl l s).1.reg ∧
    (∀ f ∈ (procLoop cfg username tweetId nowMs dl l s).1.files, f.mediaKey ≠ key) ∧
    (∀ p, Event.download key p ∉
      (procLoop cfg username tweetId nowMs dl l s).1.events) := by
  induction l generalizing s with
  | nil =>
      refine ⟨by simpa [procLoop] using hreg, ?_, ?_⟩
      · simpa [procLoop] using hfiles
      · simpa [procLoop] using hev
  | cons p rest ih =>
      obtain ⟨i, m⟩ := p
      simp only [procLoop]
      rcases procStep_cases cfg username tweetId nowMs dl i m s with
        ⟨hup, heq⟩ | ⟨hup, hdl, heq⟩ | ⟨size, hup, hdl, hbig, heq⟩ |
        ⟨size, hup, hdl, hbig, heq⟩ <;> rw [heq] <;>
        simp only [Bool.false_eq_true, if_false, if_true]
      · exact ih _ hreg hfiles hev
      · have hkne : makeMediaKey tweetId m.url ≠ key := by
          intro hkk
          rw [hkk] at hup
          rw [(isMediaUploaded_eq_true_iff key s.reg).mpr hreg] at hup
          simp at hup
        refine ⟨hreg, hfiles, ?_⟩
        intro q hq
        rcases List.mem_append.mp hq with hq | hq
        · exact hev q hq
        · simp only [List.mem_singleton] at hq
          cases hq
          exact hkne rfl
      · have hkne : makeMediaKey tweetId m.url ≠ key := by
          intro hkk
          rw [hkk] at hup
          rw [(isMediaUploaded_eq_true_iff key s.reg).mpr hreg] at hup
          simp at hup
        refine ih _ (regKeys_mark_mem _ _ _ hreg) hfiles ?_
        intro q hq
        rcases List.mem_append.mp hq with hq | hq
        · exact hev q hq
        · simp only [List.mem_cons, List.not_mem_nil, or_false] at hq
          rcases hq with hq | hq | hq
          · cases hq
            exact hkne rfl
          · cases hq
          · cases hq
      · have hkne : makeMediaKey tweetId m.url ≠ key := by
          intro hkk
          rw [hkk] at hup
          rw [(isMediaUploaded_eq_true_iff key s.reg).mpr hreg] at hup
          simp at hup
        refine ih _ hreg ?_ ?_
        · intro f hf
          rcases List.mem_append.mp hf with hf | hf
          · exact hfiles f hf
          · simp only [List.mem_singleton] at hf
            subst hf
            exact hkne
        · intro q hq
          rcases List.mem_append.mp hq with hq | hq
          · exact hev q hq
          · simp only [List.mem_singleton] at hq
            cases hq
            exact hkne rfl

theorem foldl_mark_nodup (recs : List MediaRecord) (reg : List MediaRecord)
    (h : (regKeys reg).Nodup) :
    (regKeys (recs.foldl (fun acc q => markMediaUploaded q acc) reg)).Nodup := by
  induction recs generalizing reg with
  | nil => simpa using h
  | cons r rs ih => exact ih _ (regKeys_mark_nodup r reg h)

theorem foldl_mark_persists (recs : List MediaRecord) (reg : List MediaRecord)
    (q : MediaRecord) (hq : q ∈ reg)
    (h : ∀ r ∈ recs, r.mediaKey ≠ q.mediaKey) :
    q ∈ recs.foldl (fun acc r => markMediaUploaded r acc) reg := by
  induction recs generalizing reg with
  | nil => simpa using hq
  | cons r rs ih =>
      simp only [List.foldl_cons]
      exact ih _ (mark_preserves_mem r q reg hq (fun hk => h r (List.mem_cons_self _ _) hk.symm))
        (fun r' hr' => h r' (List.mem_cons_of_mem _ hr'))


/-! ## C1: permanent dedupe -/

/-- C1.  For a media key already present in the registry: the registry keeps
at most one record per key (`Nodup` preservation on the key column, matching
the `media_key` primary key), and `processTweet` performs no download and no
sink send for that key — the only thing a registered media does is bump
`skipped` (last conjunct: the loop iteration for any such media is exactly a
skip, with no state change and no thrown error). -/
theorem media_dedupe_permanent (cfg : PipelineConfig) (username : String)
    (nowMs : Nat) (dl : Nat → DownloadOutcome) (send : Option (List String))
    (reg : List MediaRecord) (tweet : MediaTweet) (key : String)
    (hkey : isMediaUploaded key reg = true)
    (hnodup : (regKeys reg).Nodup) :
    ((regKeys (processTweet cfg username nowMs dl send reg tweet).2.1).Nodup) ∧
    (∀ p, Event.download key p ∉ (processTweet cfg username nowMs dl send reg tweet).2.2) ∧
    (∀ fs, Event.sendMedia fs ∈ (processTweet cfg username nowMs dl send reg tweet).2.2 →
      ∀ f ∈ fs, f.mediaKey ≠ key) ∧
    (∀ i m s, isMediaUploaded (makeMediaKey tweet.id m.url) s.reg = true →
      procStep cfg username tweet.id nowMs dl i m s =
        ({ s with totals := { s.totals with skipped := s.totals.skipped + 1 } }, false)) := by
  have hskip : ∀ i m s, isMediaUploaded (makeMediaKey tweet.id m.url) s.reg = true →
      procStep cfg username tweet.id nowMs dl i m s =
        ({ s with totals := { s.totals with skipped := s.totals.skipped + 1 } }, false) := by
    intro i m s hs
    simp [procStep, hs]
  have hkmem : key ∈ regKeys reg := (isMediaUploaded_eq_true_iff key reg).mp hkey
  have hinv := procLoop_registered_key cfg username tweet.id nowMs dl
    (enumFrom 0 tweet.media) ⟨⟨0, 0, 0⟩, reg, [], []⟩ key hkmem (by simp) (by simp)
  have hnd := procLoop_nodup cfg username tweet.id nowMs dl
    (enumFrom 0 tweet.media) ⟨⟨0, 0, 0⟩, reg, [], []⟩ hnodup
  have hsm : ∀ fs, Event.sendMedia fs ∈ (procLoop cfg username tweet.id nowMs dl
      (enumFrom 0 tweet.media) ⟨⟨0, 0, 0⟩, reg, [], []⟩).1.events → False := by
    intro fs hfs
    have := procLoop_sendMedia_origin cfg username tweet.id nowMs dl
      (enumFrom 0 tweet.media) ⟨⟨0, 0, 0⟩, reg, [], []⟩ fs hfs
    simp at this
  simp only [processTweet]
  rcases hre : procLoop cfg username tweet.id nowMs dl (enumFrom 0 tweet.media)
      ⟨⟨0, 0, 0⟩, reg, [], []⟩ with ⟨s, thrown⟩
  rw [hre] at hinv hnd
  simp only at hinv hnd
  have hsm' : ∀ fs, Event.sendMedia fs ∈ s.events → False := by
    intro fs hfs
    apply hsm fs
    rw [hre]
    exact hfs
  obtain ⟨hkreg, hkfiles, hkev⟩ := hinv
  dsimp only
  cases thrown
  · simp only [Bool.false_eq_true, if_false]
    by_cases hemp : s.files.isEmpty
    · simp only [hemp, if_true]
      refine ⟨hnd, hkev, ?_, hskip⟩
      intro fs hfs f hf
      exact (hsm' fs hfs).elim
    · have hemp' : s.files.isEmpty = false := by
        simpa using hemp
      simp only [hemp', Bool.false_eq_true, if_false]
      cases send with
      | none =>
          refine ⟨hnd, ?_, ?_, hskip⟩
          · intro p hp
            simp only [List.mem_append, List.mem_singleton, List.mem_map] at hp
            rcases hp with (hp | hp) | hp
            · exact hkev p hp
            · cases hp
            · obtain ⟨f, _, hf⟩ := hp
              cases hf
          · intro fs hfs f hf
            simp only [List.mem_append, List.mem_singleton, List.mem_map] at hfs
            rcases hfs with (hfs | hfs) | hfs
            · exact (hsm' fs hfs).elim
            · injection hfs with h2
              subst h2
              exact hkfiles f hf
            · obtain ⟨f2, _, hf2⟩ := hfs
              cases hf2
      | some ids =>
          refine ⟨foldl_mark_nodup _ _ hnd, ?_, ?_, hskip⟩
          · intro p hp
            simp only [List.mem_append, List.mem_singleton, List.mem_map] at hp
            rcases hp with ((hp | hp) | hp) | hp
            · exact hkev p hp
            · cases hp
            · obtain ⟨r, _, hr⟩ := hp
              cases hr
            · obtain ⟨f, _, hf⟩ := hp
              cases hf
          · intro fs hfs f hf
            simp only [List.mem_append, List.mem_singleton, List.mem_map] at hfs
            rcases hfs with ((hfs | hfs) | hfs) | hfs
            · exact (hsm' fs hfs).elim
            · injection hfs with h2
              subst h2
              exact hkfiles f hf
            · obtain ⟨r, _, hr⟩ := hfs
              cases hr
            · obtain ⟨f2, _, hf2⟩ := hfs
              cases hf2
  · simp only [if_true]
    refine ⟨hnd, ?_, ?_, hskip⟩
    · intro p hp
      simp only [List.mem_append, List.mem_map] at hp
      rcases hp with hp | hp
      · exact hkev p hp
      · obtain ⟨f, _, hf⟩ := hp
        cases hf
    · intro fs hfs f hf
      simp only [List.mem_append, List.mem_map] at hfs
      rcases hfs with hfs | hfs
      · exact (hsm' fs hfs).elim
      · obtain ⟨f2, _, hf2⟩ := hfs
        cases hf2


def c1rec : MediaRecord :=
  { mediaKey := makeMediaKey "1" "u1", tweetId := "1", username := "a", mediaUrl := "u1"
    mediaType := .photo, uploadedAt := 0, telegramMessageIds := ["9"], status := .uploaded }

def c1tweet : MediaTweet :=
  ⟨"1", "a", "", "https://x.com/a/status/1", 0, [⟨"m", "u1", .photo⟩]⟩

def c1cfg : PipelineConfig := ⟨["a"], 1, 5, "/tmp/work", 10, 7200, 10⟩

theorem media_dedupe_permanent_witness :
    (isMediaUploaded (makeMediaKey "1" "u1") [c1rec] = true) ∧
    ((regKeys [c1rec]).Nodup) ∧
    (((regKeys (processTweet c1cfg "a" 0 (fun _ => .ok 1) (some ["9"]) [c1rec] c1tweet).2.1).Nodup) ∧
     (∀ p, Event.download (makeMediaKey "1" "u1") p ∉
        (processTweet c1cfg "a" 0 (fun _ => .ok 1) (some ["9"]) [c1rec] c1tweet).2.2) ∧
     (∀ fs, Event.sendMedia fs ∈
        (processTweet c1cfg "a" 0 (fun _ => .ok 1) (some ["9"]) [c1rec] c1tweet).2.2 →
        ∀ f ∈ fs, f.mediaKey ≠ makeMediaKey "1" "u1") ∧
     (∀ i m s, isMediaUploaded (makeMediaKey c1tweet.id m.url) s.reg = true →
        procStep c1cfg "a" c1tweet.id 0 (fun _ => .ok 1) i m s =
          ({ s with totals := { s.totals with skipped := s.totals.skipped + 1 } }, false))) := by
  have h1 : isMediaUploaded (makeMediaKey "1" "u1") [c1rec] = true := by
    simp [isMediaUploaded, c1rec]
  have h2 : (regKeys [c1rec]).Nodup := by
    simp [regKeys]
  exact ⟨h1, h2,
    media_dedupe_permanent c1cfg "a" 0 (fun _ => .ok 1) (some ["9"]) [c1rec] c1tweet
      (makeMediaKey "1" "u1") h1 h2⟩


/-! ## C6: oversize non-photo media -/

/-- C6.  When the loop reaches a not-yet-registered non-photo media whose
downloaded size exceeds `maxUploadVideoBytes`, the iteration records exactly a
`skipped_oversize` row with an empty message-id list, deletes the local file,
bumps `skipped` by one and buffers nothing (first conjunct is that exact step
equation); the record survives to `processTweet`'s final registry, the mark
and the file deletion are in its event trace, and no sink call ever carries
that media's key. -/
theorem oversize_video_skipped (cfg : PipelineConfig) (username : String)
    (nowMs : Nat) (dl : Nat → DownloadOutcome) (send : Option (List String))
    (reg : List MediaRecord) (tweet : MediaTweet)
    (pre post : List TweetMedia) (m : TweetMedia) (size : Nat) (s1 : LoopState)
    (hsplit : tweet.media = pre ++ m :: post)
    (hpre : procLoop cfg username tweet.id nowMs dl (enumFrom 0 pre)
      ⟨⟨0, 0, 0⟩, reg, [], []⟩ = (s1, false))
    (hkey : isMediaUploaded (makeMediaKey tweet.id m.url) s1.reg = false)
    (hdl : dl pre.length = .ok size)
    (hty : m.type ≠ .photo)
    (hsize : cfg.maxUploadVideoBytes < size)
    (hdist : ∀ m' ∈ pre ++ post,
      makeMediaKey tweet.id m'.url ≠ makeMediaKey tweet.id m.url) :
    (procStep cfg username tweet.id nowMs dl pre.length m s1 =
      ({ s1 with
          totals := { s1.totals with skipped := s1.totals.skipped + 1 }
          reg := markMediaUploaded (oversizeRecord username tweet.id nowMs m) s1.reg
          events := s1.events ++
            [Event.download (makeMediaKey tweet.id m.url)
               (mediaPath cfg username (makeMediaKey tweet.id m.url) m.type),
             Event.markMedia (oversizeRecord username tweet.id nowMs m),
             Event.removeFile (mediaPath cfg username (makeMediaKey tweet.id m.url) m.type)] },
        false)) ∧
    oversizeRecord username tweet.id nowMs m ∈
      (processTweet cfg username nowMs dl send reg tweet).2.1 ∧
    Event.markMedia (oversizeRecord username tweet.id nowMs m) ∈
      (processTweet cfg username nowMs dl send reg tweet).2.2 ∧
    Event.removeFile (mediaPath cfg username (makeMediaKey tweet.id m.url) m.type) ∈
      (processTweet cfg username nowMs dl send reg tweet).2.2 ∧
    (∀ fs, Event.sendMedia fs ∈ (processTweet cfg username nowMs dl send reg tweet).2.2 →
      ∀ f ∈ fs, f.mediaKey ≠ makeMediaKey tweet.id m.url) := by
  have hdistPre : ∀ m' ∈ pre,
      makeMediaKey tweet.id m'.url ≠ makeMediaKey tweet.id m.url :=
    fun m' hm' => hdist m' (List.mem_append_left _ hm')
  have hdistPost : ∀ m' ∈ post,
      makeMediaKey tweet.id m'.url ≠ makeMediaKey tweet.id m.url :=
    fun m' hm' => hdist m' (List.mem_append_right _ hm')
  have hstep : procStep cfg username tweet.id nowMs dl pre.length m s1 =
      ({ s1 with
          totals := { s1.totals with skipped := s1.totals.skipped + 1 }
          reg := markMediaUploaded (oversizeRecord username tweet.id nowMs m) s1.reg
          events := s1.events ++
            [Event.download (makeMediaKey tweet.id m.url)
               (mediaPath cfg username (makeMediaKey tweet.id m.url) m.type),
             Event.markMedia (oversizeRecord username tweet.id nowMs m),
             Event.removeFile (mediaPath cfg username (makeMediaKey tweet.id m.url) m.type)] },
        false) := by
    simp [procStep, hkey, hdl, hty, hsize]
  refine ⟨hstep, ?_⟩
  rcases hst : procStep cfg username tweet.id nowMs dl pre.length m s1 with ⟨s2, t2⟩
  rw [hst] at hstep
  simp only [Prod.mk.injEq] at hstep
  obtain ⟨hs2val, ht2⟩ := hstep
  subst ht2
  -- facts about the state after the `m` iteration
  have hs2reg : s2.reg = markMediaUploaded (oversizeRecord username tweet.id nowMs m) s1.reg := by
    rw [hs2val]
  have hs2files : s2.files = s1.files := by
    rw [hs2val]
  have hs2events : s2.events = s1.events ++
      [Event.download (makeMediaKey tweet.id m.url)
         (mediaPath cfg username (makeMediaKey tweet.id m.url) m.type),
       Event.markMedia (oversizeRecord username tweet.id nowMs m),
       Event.removeFile (mediaPath cfg username (makeMediaKey tweet.id m.url) m.type)] := by
    rw [hs2val]
  have hloop : procLoop cfg username tweet.id nowMs dl (enumFrom 0 tweet.media)
        ⟨⟨0, 0, 0⟩, reg, [], []⟩ =
      procLoop cfg username tweet.id nowMs dl (enumFrom (pre.length + 1) post) s2 := by
    rw [hsplit, enumFrom_append, procLoop_append, hpre]
    simp only [Bool.false_eq_true, if_false, Nat.zero_add, enumFrom, procLoop]
    rw [hst]
    simp
  -- pre-loop facts
  have hs1files : ∀ f ∈ s1.files, f.mediaKey ≠ makeMediaKey tweet.id m.url := by
    intro f hf
    have horig := procLoop_files_origin cfg username tweet.id nowMs dl (enumFrom 0 pre)
      ⟨⟨0, 0, 0⟩, reg, [], []⟩ f (by rw [hpre]; exact hf)
    rcases horig with hin | ⟨p, hp, hk⟩
    · simp at hin
    · rw [hk]
      exact hdistPre p.2 (enumFrom_mem _ _ hp)
  have hs1send : ∀ fs, Event.sendMedia fs ∈ s1.events → False := by
    intro fs hfs
    have := procLoop_sendMedia_origin cfg username tweet.id nowMs dl (enumFrom 0 pre)
      ⟨⟨0, 0, 0⟩, reg, [], []⟩ fs (by rw [hpre]; exact hfs)
    simp at this
  -- post-loop facts
  have hreckey : (oversizeRecord username tweet.id nowMs m).mediaKey =
      makeMediaKey tweet.id m.url := rfl
  have hkpost : ∀ p ∈ enumFrom (pre.length + 1) post,
      makeMediaKey tweet.id p.2.url ≠ (oversizeRecord username tweet.id nowMs m).mediaKey := by
    intro p hp
    rw [hreckey]
    exact hdistPost p.2 (enumFrom_mem _ _ hp)
  have hBreg : oversizeRecord username tweet.id nowMs m ∈
      (procLoop cfg username tweet.id nowMs dl (enumFrom (pre.length + 1) post) s2).1.reg := by
    refine procLoop_rec_persists cfg username tweet.id nowMs dl _ s2 _ ?_ hkpost
    rw [hs2reg]
    exact mark_mem_self _ _
  have hBmark : Event.markMedia (oversizeRecord username tweet.id nowMs m) ∈
      (procLoop cfg username tweet.id nowMs dl (enumFrom (pre.length + 1) post) s2).1.events := by
    refine procLoop_events_mono cfg username tweet.id nowMs dl _ s2 _ ?_
    rw [hs2events]
    simp
  have hBremove : Event.removeFile
        (mediaPath cfg username (makeMediaKey tweet.id m.url) m.type) ∈
      (procLoop cfg username tweet.id nowMs dl (enumFrom (pre.length + 1) post) s2).1.events := by
    refine procLoop_events_mono cfg username tweet.id nowMs dl _ s2 _ ?_
    rw [hs2events]
    simp
  have hBfiles : ∀ f ∈
      (procLoop cfg username tweet.id nowMs dl (enumFrom (pre.length + 1) post) s2).1.files,
      f.mediaKey ≠ makeMediaKey tweet.id m.url := by
    intro f hf
    have horig := procLoop_files_origin cfg username tweet.id nowMs dl _ s2 f hf
    rcases horig with hin | ⟨p, hp, hk⟩
    · rw [hs2files] at hin
      exact hs1files f hin
    · rw [hk]
      exact hdistPost p.2 (enumFrom_mem _ _ hp)
  have hBsend : ∀ fs, Event.sendMedia fs ∈
      (procLoop cfg username tweet.id nowMs dl (enumFrom (pre.length + 1) post) s2).1.events →
      False := by
    intro fs hfs
    have := procLoop_sendMedia_origin cfg username tweet.id nowMs dl _ s2 fs hfs
    rw [hs2events] at this
    rcases List.mem_append.mp this with hh | hh
    · exact hs1send fs hh
    · simp at hh
  -- dispatch on processTweet's outcome branches
  simp only [processTweet]
  rw [hloop]
  rcases hB : procLoop cfg username tweet.id nowMs dl (enumFrom (pre.length + 1) post) s2
    with ⟨sB, tB⟩
  rw [hB] at hBreg hBmark hBremove hBfiles hBsend
  simp only at hBreg hBmark hBremove hBfiles hBsend
  dsimp only
  cases tB
  · simp only [Bool.false_eq_true, if_false]
    by_cases hemp : sB.files.isEmpty
    · simp only [hemp, if_true]
      refine ⟨hBreg, hBmark, hBremove, ?_⟩
      intro fs hfs f hf
      exact (hBsend fs hfs).elim
    · have hemp' : sB.files.isEmpty = false := by simpa using hemp
      simp only [hemp', Bool.false_eq_true, if_false]
      cases send with
      | none =>
          refine ⟨hBreg, ?_, ?_, ?_⟩
          · exact List.mem_append_left _ (List.mem_append_left _ hBmark)
          · exact List.mem_append_left _ (List.mem_append_left _ hBremove)
          · intro fs hfs f hf
            simp only [List.mem_append, List.mem_singleton, List.mem_map] at hfs
            rcases hfs with (hfs | hfs) | hfs
            · exact (hBsend fs hfs).elim
            · injection hfs with h2
              subst h2
              exact hBfiles f hf
            · obtain ⟨f2, _, hf2⟩ := hfs
              cases hf2
      | some ids =>
          refine ⟨?_, ?_, ?_, ?_⟩
          · refine foldl_mark_persists _ _ _ hBreg ?_
            intro r hr
            simp only [List.mem_map] at hr
            obtain ⟨f, hfmem, rfl⟩ := hr
            simp only [hreckey]
            exact hBfiles f hfmem
          · exact List.mem_append_left _
              (List.mem_append_left _ (List.mem_append_left _ hBmark))
          · exact List.mem_append_left _
              (List.mem_append_left _ (List.mem_append_left _ hBremove))
          · intro fs hfs f hf
            simp only [List.mem_append, List.mem_singleton, List.mem_map] at hfs
            rcases hfs with ((hfs | hfs) | hfs) | hfs
            · exact (hBsend fs hfs).elim
            · injection hfs with h2
              subst h2
              exact hBfiles f hf
            · obtain ⟨r, _, hr⟩ := hfs
              cases hr
            · obtain ⟨f2, _, hf2⟩ := hfs
              cases hf2
  · simp only [if_true]
    refine ⟨hBreg, ?_, ?_, ?_⟩
    · exact List.mem_append_left _ hBmark
    · exact List.mem_append_left _ hBremove
    · intro fs hfs f hf
      simp only [List.mem_append, List.mem_map] at hfs
      rcases hfs with hfs | hfs
      · exact (hBsend fs hfs).elim
      · obtain ⟨f2, _, hf2⟩ := hfs
        cases hf2


def c6m : TweetMedia := ⟨"mid", "vu", .video⟩

def c6tweet : MediaTweet := ⟨"9", "a", "", "https://x.com/a/status/9", 0, [c6m]⟩

def c6cfg : PipelineConfig := ⟨["a"], 1, 5, "/tmp/work", 10, 7200, 10⟩

def c6dl : Nat → DownloadOutcome := fun _ => .ok 11

def c6s1 : LoopState := ⟨⟨0, 0, 0⟩, [], [], []⟩

theorem oversize_video_skipped_witness :
    (c6tweet.media = [] ++ c6m :: []) ∧
    (procLoop c6cfg "a" c6tweet.id 0 c6dl (enumFrom 0 [])
      ⟨⟨0, 0, 0⟩, [], [], []⟩ = (c6s1, false)) ∧
    (isMediaUploaded (makeMediaKey c6tweet.id c6m.url) c6s1.reg = false) ∧
    (c6dl (List.length ([] : List TweetMedia)) = .ok 11) ∧
    (c6m.type ≠ .photo) ∧
    (c6cfg.maxUploadVideoBytes < 11) ∧
    ((procStep c6cfg "a" c6tweet.id 0 c6dl (List.length ([] : List TweetMedia)) c6m c6s1 =
      ({ c6s1 with
          totals := { c6s1.totals with skipped := c6s1.totals.skipped + 1 }
          reg := markMediaUploaded (oversizeRecord "a" c6tweet.id 0 c6m) c6s1.reg
          events := c6s1.events ++
            [Event.download (makeMediaKey c6tweet.id c6m.url)
               (mediaPath c6cfg "a" (makeMediaKey c6tweet.id c6m.url) c6m.type),
             Event.markMedia (oversizeRecord "a" c6tweet.id 0 c6m),
             Event.removeFile (mediaPath c6cfg "a" (makeMediaKey c6tweet.id c6m.url) c6m.type)] },
        false)) ∧
     oversizeRecord "a" c6tweet.id 0 c6m ∈
       (processTweet c6cfg "a" 0 c6dl (some ["5"]) [] c6tweet).2.1 ∧
     Event.markMedia (oversizeRecord "a" c6tweet.id 0 c6m) ∈
       (processTweet c6cfg "a" 0 c6dl (some ["5"]) [] c6tweet).2.2 ∧
     Event.removeFile (mediaPath c6cfg "a" (makeMediaKey c6tweet.id c6m.url) c6m.type) ∈
       (processTweet c6cfg "a" 0 c6dl (some ["5"]) [] c6tweet).2.2 ∧
     (∀ fs, Event.sendMedia fs ∈ (processTweet c6cfg "a" 0 c6dl (some ["5"]) [] c6tweet).2.2 →
       ∀ f ∈ fs, f.mediaKey ≠ makeMediaKey c6tweet.id c6m.url)) := by
  refine ⟨rfl, rfl, rfl, rfl, by decide, by decide, ?_⟩
  exact oversize_video_skipped c6cfg "a" 0 c6dl (some ["5"]) [] c6tweet [] [] c6m 11 c6s1
    rfl rfl rfl rfl (by decide) (by decide) (by simp)


/-! ## C10: uploaded records store the whole group's message ids -/

theorem foldl_append_map_flatten {β : Type} (g : β → List String) (l : List β)
    (acc : List String) :
    l.foldl (fun a p => a ++ g p) acc = acc ++ (l.map g).flatten := by
  induction l generalizing acc with
  | nil => simp
  | cons x xs ih => simp [ih, List.append_assoc]

/-- C10.  The sink adapter returns the ids of *all* messages of the group, in
send order (the concatenation over the ten-file chunks), and after a
successful group send every record `processTweet` inserts with status
`uploaded` stores exactly that complete list — identical for every file of
the post, not just the ids of the messages carrying that file. -/
theorem uploaded_records_store_group_ids (cfg : PipelineConfig) (username : String)
    (nowMs : Nat) (dl : Nat → DownloadOutcome) (reg : List MediaRecord)
    (tweet : MediaTweet) (chunkIds : Nat → List Nat) (files0 : List LocalFile)
    (ids : List String) :
    (sendTweetMediaGroupIds chunkIds files0 =
      ((enumFrom 0 (chunkArray files0.length 10 files0)).map
        (fun p => (chunkIds p.1).map (fun n => toString n))).flatten) ∧
    (∀ r, Event.markMedia r ∈
        (processTweet cfg username nowMs dl (some ids) reg tweet).2.2 →
      r.status = .uploaded → r.telegramMessageIds = ids) := by
  constructor
  · simp only [sendTweetMediaGroupIds]
    rw [foldl_append_map_flatten]
    simp
  · intro r hr hst
    simp only [processTweet] at hr
    rcases hB : procLoop cfg username tweet.id nowMs dl (enumFrom 0 tweet.media)
        ⟨⟨0, 0, 0⟩, reg, [], []⟩ with ⟨s, thrown⟩
    rw [hB] at hr
    simp only at hr
    have hmark : ∀ r', Event.markMedia r' ∈ s.events → r'.status = .skipped_oversize := by
      intro r' hr'
      have := procLoop_markMedia_origin cfg username tweet.id nowMs dl
        (enumFrom 0 tweet.media) ⟨⟨0, 0, 0⟩, reg, [], []⟩ r' (by rw [hB]; exact hr')
      rcases this with h | h
      · simp at h
      · exact h
    cases thrown
    · simp only [Bool.false_eq_true, if_false] at hr
      by_cases hemp : s.files.isEmpty
      · simp only [hemp, if_true] at hr
        have := hmark r hr
        rw [hst] at this
        simp at this
      · have hemp' : s.files.isEmpty = false := by simpa using hemp
        simp only [hemp', Bool.false_eq_true, if_false] at hr
        simp only [List.mem_append, List.mem_singleton, List.mem_map] at hr
        rcases hr with ((hr | hr) | hr) | hr
        · have := hmark r hr
          rw [hst] at this
          simp at this
        · cases hr
        · obtain ⟨f, hfmem, hf⟩ := hr
          injection hf with h3
          rw [← h3]
          obtain ⟨a, _, hfa⟩ := hfmem
          rw [← hfa]
        · obtain ⟨f2, _, hf2⟩ := hr
          cases hf2
    · simp only [if_true] at hr
      simp only [List.mem_append, List.mem_map] at hr
      rcases hr with hr | hr
      · have := hmark r hr
        rw [hst] at this
        simp at this
      · obtain ⟨f2, _, hf2⟩ := hr
        cases hf2


def c10f1 : LocalFile := ⟨"k1", "u1", .photo, "/p1", 1⟩

def c10f2 : LocalFile := ⟨"k2", "u2", .photo, "/p2", 1⟩

def c10tweet : MediaTweet :=
  ⟨"3", "a", "", "https://x.com/a/status/3", 0, [⟨"m1", "u1", .photo⟩, ⟨"m2", "u2", .photo⟩]⟩

def c10cfg : PipelineConfig := ⟨["a"], 1, 5, "/tmp/work", 10, 7200, 10⟩

def c10chunkIds : Nat → List Nat := fun i => if i = 0 then [7, 8] else []

theorem uploaded_records_store_group_ids_witness :
    (sendTweetMediaGroupIds c10chunkIds [c10f1, c10f2] = ["7", "8"]) ∧
    ((sendTweetMediaGroupIds c10chunkIds [c10f1, c10f2] =
      ((enumFrom 0 (chunkArray ([c10f1, c10f2] : List LocalFile).length 10 [c10f1, c10f2])).map
        (fun p => (c10chunkIds p.1).map (fun n => toString n))).flatten) ∧
     (∀ r, Event.markMedia r ∈
        (processTweet c10cfg "a" 0 (fun _ => .ok 1) (some ["7", "8"]) [] c10tweet).2.2 →
      r.status = .uploaded → r.telegramMessageIds = ["7", "8"])) := by
  refine ⟨by decide, ?_⟩
  exact uploaded_records_store_group_ids c10cfg "a" 0 (fun _ => .ok 1) [] c10tweet
    c10chunkIds [c10f1, c10f2] ["7", "8"]

end Dau
